import Mathlib

/-!
Verification development for the simulation core of the `ld36` platformer
(`game` package: tile-grid collision sweeps, rock push physics, camera
framing, gate sequencing, frame orchestration).

All definitions are shallow embeddings of the Go source:
* Go `int` becomes `ℤ`; Go integer division (truncation toward zero) is
  modelled by `goDiv` (`Int.tdiv`).
* Go `float32` fields are modelled by exact rationals `ℚ`; all float
  constants of the source (0.05, 0.025, 0.02, 0.667, 0.0077, 0.5) are
  carried as the corresponding rationals.
* Slices become lists, in-place mutation becomes functional update, and
  `for` loops become folds / fuelled recursion with the same visit order.
-/

/-- Go integer division: truncation toward zero (`a / b` in Go). -/
def goDiv (a b : ℤ) : ℤ := a.tdiv b

/-- Go integer remainder: truncation toward zero (`a % b` in Go). -/
def goMod (a b : ℤ) : ℤ := a.tmod b

/-- The `Rectangle` from the source: integer position and size in world pixels. -/
structure Rectangle where
  X : ℤ
  Y : ℤ
  W : ℤ
  H : ℤ
deriving DecidableEq

/-- The `Rectangle.overlaps` from the source: strict intersection on both axes. -/
def Rectangle.overlaps (r s : Rectangle) : Bool :=
  decide (r.X + r.W > s.X) && decide (r.Y + r.H > s.Y) &&
  decide (s.X + s.W > r.X) && decide (s.Y + s.H > r.Y)

/-- The `tile` from the source. -/
structure tile where
  imageSource : Rectangle
  isSolid : Bool
deriving DecidableEq

/-- Go zero value of `tile`, returned by `tileAt` for out-of-range queries. -/
def zeroTile : tile := ⟨⟨0, 0, 0, 0⟩, false⟩

/-- The `tileMap` from the source: grid dimensions, tile pixel size, and the
row-major tile array. -/
structure tileMap where
  width : ℤ
  height : ℤ
  tileW : ℤ
  tileH : ℤ
  tiles : List tile
deriving DecidableEq

def tileMap.toTileX (m : tileMap) (worldX : ℤ) : ℤ := goDiv worldX m.tileW

def tileMap.toTileY (m : tileMap) (worldY : ℤ) : ℤ := goDiv worldY m.tileH

def tileMap.toWorldX (m : tileMap) (tileX : ℤ) : ℤ := tileX * m.tileW

def tileMap.toWorldY (m : tileMap) (tileY : ℤ) : ℤ := tileY * m.tileH

def tileMap.toWorldXY (m : tileMap) (tileX tileY : ℤ) : ℤ × ℤ :=
  (tileX * m.tileW, tileY * m.tileH)

/-- The `tileMap.tileAt` from the source: out-of-range queries yield the
non-solid zero tile. -/
def tileMap.tileAt (m : tileMap) (tileX tileY : ℤ) : tile :=
  if tileX < 0 ∨ tileY < 0 ∨ m.width ≤ tileX ∨ m.height ≤ tileY then zeroTile
  else m.tiles.getD (tileX + tileY * m.width).toNat zeroTile

def tileMap.worldSize (m : tileMap) : ℤ × ℤ := (m.width * m.tileW, m.height * m.tileH)

/-- The integers from `lo` to `hi` inclusive, in increasing order
(the index range of a Go `for v := lo; v <= hi; v++` loop). -/
def intRange (lo hi : ℤ) : List ℤ :=
  (List.range (hi + 1 - lo).toNat).map (fun i : ℕ => lo + (i : ℤ))

/-- The `(tileY, tileX)` pairs visited by the nested tile-scan loops of the
sweep functions, outer row loop first. -/
def tilePairs (ty1 ty2 tx1 tx2 : ℤ) : List (ℤ × ℤ) :=
  (intRange ty1 ty2).flatMap (fun ty => (intRange tx1 tx2).map (fun tx => (ty, tx)))

/-- Accumulate the minimum of `f p` over the pairs satisfying `P`,
starting from `init` (the pattern of the rightward/downward sweep loops). -/
def condMinFold (P : ℤ × ℤ → Bool) (f : ℤ × ℤ → ℤ) (l : List (ℤ × ℤ)) (init : ℤ) : ℤ :=
  l.foldl (fun acc p => if P p then (if f p < acc then f p else acc) else acc) init

/-- Accumulate the maximum of `f p` over the pairs satisfying `P`,
starting from `init` (the pattern of the leftward/upward sweep loops). -/
def condMaxFold (P : ℤ × ℤ → Bool) (f : ℤ × ℤ → ℤ) (l : List (ℤ × ℤ)) (init : ℤ) : ℤ :=
  l.foldl (fun acc p => if P p then (if f p > acc then f p else acc) else acc) init

/-- The `tileMap.moveInX` from the source: sweep `start` horizontally by `dx`
through the grid, returning the realized displacement and whether a solid
tile was hit. -/
def tileMap.moveInX (m : tileMap) (start : Rectangle) (dx : ℤ) : ℤ × Bool :=
  if dx < 0 then
    let r : Rectangle := { start with X := start.X + dx, W := start.W - dx }
    let pairs := tilePairs (m.toTileY r.Y) (m.toTileY (r.Y + r.H - 1))
      (m.toTileX r.X) (m.toTileX (r.X + r.W - 1))
    let newX := condMaxFold (fun p => (m.tileAt p.2 p.1).isSolid)
      (fun p => m.toWorldX (p.2 + 1)) pairs r.X
    (newX - start.X, decide (newX ≠ r.X))
  else if dx > 0 then
    let r : Rectangle := { start with W := start.W + dx }
    let pairs := tilePairs (m.toTileY r.Y) (m.toTileY (r.Y + r.H - 1))
      (m.toTileX r.X) (m.toTileX (r.X + r.W - 1))
    let newRight := condMinFold (fun p => (m.tileAt p.2 p.1).isSolid)
      (fun p => m.toWorldX p.2 - 1) pairs (r.X + r.W - 1)
    ((newRight - start.W + 1) - start.X, decide (newRight ≠ r.X + r.W - 1))
  else (0, false)

/-- The `tileMap.moveInY` from the source: sweep `start` vertically by `dy`
through the grid. -/
def tileMap.moveInY (m : tileMap) (start : Rectangle) (dy : ℤ) : ℤ × Bool :=
  if dy < 0 then
    let r : Rectangle := { start with Y := start.Y + dy, H := start.H - dy }
    let pairs := tilePairs (m.toTileY r.Y) (m.toTileY (r.Y + r.H - 1))
      (m.toTileX r.X) (m.toTileX (r.X + r.W - 1))
    let newY := condMaxFold (fun p => (m.tileAt p.2 p.1).isSolid)
      (fun p => m.toWorldY (p.1 + 1)) pairs r.Y
    (newY - start.Y, decide (newY ≠ r.Y))
  else if dy > 0 then
    let r : Rectangle := { start with H := start.H + dy }
    let pairs := tilePairs (m.toTileY r.Y) (m.toTileY (r.Y + r.H - 1))
      (m.toTileX r.X) (m.toTileX (r.X + r.W - 1))
    let newBottom := condMinFold (fun p => (m.tileAt p.2 p.1).isSolid)
      (fun p => m.toWorldY p.1 - 1) pairs (r.Y + r.H - 1)
    ((newBottom - start.H + 1) - start.Y, decide (newBottom ≠ r.Y + r.H - 1))
  else (0, false)

/-- The world rectangle covered by grid cell `(tx, ty)`. -/
def tileMap.tileRect (m : tileMap) (tx ty : ℤ) : Rectangle :=
  ⟨m.toWorldX tx, m.toWorldY ty, m.tileW, m.tileH⟩

/-- Holds when `r` overlaps some solid tile of the map. -/
def tileMap.overlapsSolid (m : tileMap) (r : Rectangle) : Prop :=
  ∃ tx ty : ℤ, (m.tileAt tx ty).isSolid = true ∧ r.overlaps (m.tileRect tx ty) = true

/-- Executable check for `tileMap.overlapsSolid` (solid tiles only exist at
in-range grid cells). -/
def overlapsSolidB (m : tileMap) (r : Rectangle) : Bool :=
  (intRange 0 (m.width - 1)).any fun tx =>
    (intRange 0 (m.height - 1)).any fun ty =>
      (m.tileAt tx ty).isSolid && r.overlaps (m.tileRect tx ty)

/-! ## Rock physics -/

/-- The `rock` from the source: an embedded hit-box `Rectangle` (field `rect`
here), a floating horizontal speed, an integer vertical speed, and a
rendering-only rotation. -/
structure rock where
  rect : Rectangle
  speedX : ℚ
  speedY : ℤ
  rotation : ℚ
deriving DecidableEq

/-- Go zero value of `rock`. -/
def zeroRock : rock := ⟨⟨0, 0, 0, 0⟩, 0, 0, 0⟩

/-- The speed-update core of `rock.push`: add ±0.05 and clamp to [-3, 3]. -/
def rockPushSpeed (s : ℚ) (xDir : ℤ) : ℚ :=
  let acceleration : ℚ := if xDir < 0 then -(1/20) else 1/20
  let s := s + acceleration
  let s := if s > 3 then 3 else s
  if s < -3 then -3 else s

/-- The `rock.push` from the source. -/
def rock.push (r : rock) (xDir : ℤ) : rock :=
  { r with speedX := rockPushSpeed r.speedX xDir }

/-- The horizontal-friction step at the top of `rock.update`: two sequential
`if` blocks move the speed toward zero by `xGravity = 0.025`, clamping at
zero. -/
def frictionStep (v : ℚ) : ℚ :=
  let v1 := if v > 0 then (let w := v - 1/40; if w < 0 then 0 else w) else v
  if v1 < 0 then (let w := v1 + 1/40; if w > 0 then 0 else w) else v1

/-- Go conversion `int(q)` for the rational model of a float: truncation
toward zero (quotient of numerator by denominator). -/
def ratTrunc (q : ℚ) : ℤ := q.num.tdiv (q.den : ℤ)

/-- The local `round` closure of `rock.update`: `int(x - 0.5)` for negative
`x`, `int(x + 0.5)` otherwise. -/
def goRound (x : ℚ) : ℤ :=
  if x < 0 then ratTrunc (x - 1/2) else ratTrunc (x + 1/2)

/-- The `overlapsOther` closure of `rock.update`: does any rock other than
`myIndex` overlap `r`? -/
def overlapsOther (others : List rock) (myIndex : ℕ) (r : Rectangle) : Bool :=
  others.enum.any (fun p => decide (p.1 ≠ myIndex) && p.2.rect.overlaps r)

/-- The horizontal de-penetration loop of `rock.update`: while the rectangle
overlaps (`ov`), back both the displacement and the position off by
`backoff` one unit at a time, stopping when the displacement reaches zero.
The fuel argument is the loop bound; callers pass `dx.natAbs`, which the
fuel-sufficiency theorem below shows is enough. -/
def depenX (ov : Rectangle → Bool) (backoff : ℤ) : ℕ → Rectangle → ℤ → Rectangle × ℤ
  | 0, r, dx => (r, dx)
  | Nat.succ fuel, r, dx =>
    if ov r then
      if dx = 0 then (r, dx)
      else depenX ov backoff fuel { r with X := r.X - backoff } (dx - backoff)
    else (r, dx)

/-- The vertical de-penetration loop of `rock.update`. -/
def depenY (ov : Rectangle → Bool) (backoff : ℤ) : ℕ → Rectangle → ℤ → Rectangle × ℤ
  | 0, r, dy => (r, dy)
  | Nat.succ fuel, r, dy =>
    if ov r then
      if dy = 0 then (r, dy)
      else depenY ov backoff fuel { r with Y := r.Y - backoff } (dy - backoff)
    else (r, dy)

/-- The `rock.update` from the source: friction, horizontal sweep and
de-penetration, rotation, gravity, vertical sweep and de-penetration. -/
def rock.update (r : rock) (m : tileMap) (caveman : Rectangle) (others : List rock) (myIndex : ℕ) : rock :=
  let speedX := frictionStep r.speedX
  let sweep := m.moveInX r.rect (goRound speedX)
  let dx := sweep.1
  let hitWall := sweep.2
  let backoff : ℤ := if dx < 0 then -1 else 1
  let ovTest := fun (rc : Rectangle) => rc.overlaps caveman || overlapsOther others myIndex rc
  let dep := depenX ovTest backoff dx.natAbs { r.rect with X := r.rect.X + dx } dx
  let rotation := r.rotation + (dep.2 : ℚ) * (667/1000)
  let speedX := if hitWall then 0 else speedX
  let speedY := r.speedY - 2
  let sweepY := m.moveInY dep.1 speedY
  let dy := sweepY.1
  let hitMap := sweepY.2
  let backoffY : ℤ := if dy < 0 then -1 else 1
  let depY := depenY ovTest backoffY dy.natAbs { dep.1 with Y := dep.1.Y + dy } dy
  let speedY := if hitMap || decide (depY.2 = 0) then 0 else speedY
  { rect := depY.1, speedX := speedX, speedY := speedY, rotation := rotation }

/-- The per-frame rock loop of `game.Frame`: each rock is updated in index
order against the live (partially updated) rock list. -/
def updateRocks (m : tileMap) (caveman : Rectangle) (rocks : List rock) : List rock :=
  (List.range rocks.length).foldl
    (fun rs i => rs.set i ((rs.getD i zeroRock).update m caveman rs i)) rocks

/-- An externally applied operation on a rock's horizontal speed: a push or
one per-frame friction step (for the speed-bound invariant). -/
inductive rockOp
  | push (xDir : ℤ)
  | friction
deriving DecidableEq

def applyRockOp (s : ℚ) : rockOp → ℚ
  | rockOp.push d => rockPushSpeed s d
  | rockOp.friction => frictionStep s

def applyRockOps (s : ℚ) (ops : List rockOp) : ℚ := ops.foldl applyRockOp s

/-! ## Camera -/

/-- The `camera` from the source. -/
structure camera where
  offsetX : ℤ
  offsetY : ℤ
  screenW : ℤ
  screenH : ℤ
  worldW : ℤ
  worldH : ℤ
deriving DecidableEq

/-- The `camera.centerAround` from the source: center the viewport on `(x, y)`,
clamp per axis to the world bounds, and center the world instead when it is
smaller than the screen. -/
def camera.centerAround (c : camera) (x y : ℤ) : camera :=
  let offsetX := goDiv c.screenW 2 - x
  let offsetY := goDiv c.screenH 2 - y
  let offsetX := if offsetX > 0 then 0 else offsetX
  let minX := -(c.worldW - c.screenW)
  let offsetX := if offsetX < minX then minX else offsetX
  let offsetX := if c.worldW < c.screenW then goDiv (c.screenW - c.worldW) 2 else offsetX
  let offsetY := if offsetY > 0 then 0 else offsetY
  let minY := -(c.worldH - c.screenH)
  let offsetY := if offsetY < minY then minY else offsetY
  let offsetY := if c.worldH < c.screenH then goDiv (c.screenH - c.worldH) 2 else offsetY
  { c with offsetX := offsetX, offsetY := offsetY }

/-! ## Input -/

/-- The `Key` from the source (final iteration of `input.go`). -/
inductive Key
  | KeyLeft
  | KeyRight
  | KeyUp
  | KeyRestart
deriving DecidableEq

/-- The `InputEvent` from the source. -/
structure InputEvent where
  Down : Bool
  Key : Key
deriving DecidableEq

/-! ## Game state and per-frame step -/

/-- The gate-glow ping-pong update of `game.Frame` (lines 595-603 of the
source): add the delta, clamp at 0 and at 1, flipping the delta's sign on
each clamp. -/
def glowStep (p : ℚ × ℚ) : ℚ × ℚ :=
  let r1 := p.1 + p.2
  let q := if r1 < 0 then ((0 : ℚ), -p.2) else (r1, p.2)
  if q.1 > 1 then ((1 : ℚ), -q.2) else q

/-- The glow state after `n` frames, starting from ratio 0 with delta 0.02
(`newGame` sets `gateGlowDelta = 0.02`). -/
def glowIter : ℕ → ℚ × ℚ
  | 0 => (0, 1/50)
  | Nat.succ n => glowStep (glowIter n)

/-- The `game` from the source, restricted to simulation state. Loaded images
are replaced by the image sizes the simulation reads (`cavemanStand.Size()`
and `gateGlowA.Size()`); sounds and draw calls are external outputs with no
bearing on the state. -/
structure game where
  camera : camera
  levelDone : Bool
  enteringGate : Bool
  cloudDisappearing : Bool
  exitGlow : ℚ
  gateGlowRatio : ℚ
  gateGlowDelta : ℚ
  pushFrameIndex : ℤ
  nextPushFrameChange : ℤ
  cavemanX : ℤ
  cavemanY : ℤ
  cavemanSpeedY : ℤ
  cavemanIsOnGround : Bool
  cavemanFacesRight : Bool
  cavemanHitBox : Rectangle
  rockHitBox : Rectangle
  walkFrameIndex : ℤ
  nextWalkFrameChange : ℤ
  exitX : ℤ
  exitY : ℤ
  exitFacesRight : Bool
  rocks : List rock
  leftDown : Bool
  rightDown : Bool
  upDown : Bool
  tileMap : tileMap
  cavemanStandW : ℤ
  cavemanStandH : ℤ
  gateGlowAW : ℤ
deriving DecidableEq

def game.levelFinished (g : game) : Bool := g.levelDone

/-- The event-handling loop at the top of `game.Frame`. -/
def game.handleEvents (g : game) (events : List InputEvent) : game :=
  events.foldl
    (fun s e =>
      match e.Key with
      | Key.KeyLeft => { s with leftDown := e.Down }
      | Key.KeyRight => { s with rightDown := e.Down }
      | Key.KeyUp => { s with upDown := e.Down }
      | Key.KeyRestart => s)
    g

/-- Lines 502-506 of the source: while entering the gate, all directional
input is discarded. -/
def game.suppressInput (g : game) : game :=
  if g.enteringGate then { g with leftDown := false, rightDown := false, upDown := false } else g

/-- The caveman's hit-box rectangle (`cavemanBounds` / `cavemanRect` of the
source). -/
def game.cavemanBoundsOf (g : game) : Rectangle :=
  ⟨g.cavemanX + g.cavemanHitBox.X, g.cavemanY + g.cavemanHitBox.Y, g.cavemanHitBox.W, g.cavemanHitBox.H⟩

/-- The requested horizontal displacement (`cavemanDx`, `speed = 7`). -/
def game.cavemanDxOf (g : game) : ℤ :=
  if g.leftDown && !g.rightDown then -7 else if g.rightDown && !g.leftDown then 7 else 0

/-- The facing updates bound to the horizontal-input check. -/
def game.applyFacing (g : game) : game :=
  if g.leftDown && !g.rightDown then { g with cavemanFacesRight := false }
  else if g.rightDown && !g.leftDown then { g with cavemanFacesRight := true }
  else g

/-- Jump impulse, gravity, and terminal-velocity clamp for the caveman. -/
def game.applyJumpGravity (g : game) : game :=
  let g := if g.cavemanIsOnGround && g.upDown then { g with cavemanSpeedY := 20 } else g
  let g := { g with cavemanSpeedY := g.cavemanSpeedY - 1 }
  if g.cavemanSpeedY < -14 then { g with cavemanSpeedY := -14 } else g

/-- The `game.moveCavemanInX` from the source: constrain `dx` against the rock
list; returns the realized displacement, whether a rock was hit, and the
index of the rock providing the final bound (the `hit` pointer). -/
def game.moveCavemanInX (g : game) (start : Rectangle) (dx : ℤ) : ℤ × Bool × Option ℕ :=
  if dx < 0 then
    let r : Rectangle := { start with X := start.X + dx, W := start.W - dx }
    let acc := g.rocks.enum.foldl
      (fun (acc : ℤ × Option ℕ) p =>
        if r.overlaps p.2.rect then
          (let right := p.2.rect.X + p.2.rect.W
           if right > acc.1 then (right, some p.1) else acc)
        else acc)
      (r.X, none)
    (acc.1 - start.X, decide (acc.1 ≠ r.X), acc.2)
  else if dx > 0 then
    let r : Rectangle := { start with W := start.W + dx }
    let acc := g.rocks.enum.foldl
      (fun (acc : ℤ × Option ℕ) p =>
        if r.overlaps p.2.rect then
          (let left := p.2.rect.X - 1
           if left < acc.1 then (left, some p.1) else acc)
        else acc)
      (r.X + r.W - 1, none)
    ((acc.1 - start.W + 1) - start.X, decide (acc.1 ≠ r.X + r.W - 1), acc.2)
  else (0, false, none)

/-- The `game.moveCavemanInY` from the source. -/
def game.moveCavemanInY (g : game) (start : Rectangle) (dy : ℤ) : ℤ × Bool :=
  if dy < 0 then
    let r : Rectangle := { start with Y := start.Y + dy, H := start.H - dy }
    let newY := g.rocks.foldl
      (fun acc p =>
        if r.overlaps p.rect then
          (let bottom := p.rect.Y + p.rect.H
           if bottom > acc then bottom else acc)
        else acc)
      r.Y
    (newY - start.Y, decide (newY ≠ r.Y))
  else if dy > 0 then
    let r : Rectangle := { start with H := start.H + dy }
    let newBottom := g.rocks.foldl
      (fun acc p =>
        if r.overlaps p.rect then
          (let top := p.rect.Y - 1
           if top < acc then top else acc)
        else acc)
      (r.Y + r.H - 1)
    ((newBottom - start.H + 1) - start.Y, decide (newBottom ≠ r.Y + r.H - 1))
  else (0, false)

/-- Apply `rock.push` to the rock at `idx` (the `hit` pointer target). -/
def pushRockAt (rocks : List rock) (idx : Option ℕ) (dir : ℤ) : List rock :=
  match idx with
  | none => rocks
  | some i => rocks.set i ((rocks.getD i zeroRock).push dir)

/-- The player horizontal-move phase of `game.Frame` (lines 547-556): tile
sweep first; only when the tile-constrained displacement is nonzero is the
rock pass run (rock constraint plus push impulse). Returns the new state,
the final displacement, and the `cavemanPushing` flag. -/
def game.playerMoveX (g : game) (cavemanDx : ℤ) : game × ℤ × Bool :=
  let cavemanRect := g.cavemanBoundsOf
  let dx := (g.tileMap.moveInX cavemanRect cavemanDx).1
  if dx ≠ 0 then
    let res := g.moveCavemanInX cavemanRect dx
    if res.2.1 && g.cavemanIsOnGround then
      ({ g with rocks := pushRockAt g.rocks res.2.2 dx }, res.1, true)
    else (g, res.1, false)
  else (g, dx, false)

/-- The rock-update pass at the top of `game.Frame`. -/
def game.rockPhase (g : game) : game :=
  { g with rocks := updateRocks g.tileMap g.cavemanBoundsOf g.rocks }

/-- The vertical player move of `game.Frame`: tile sweep, rock pass, and the
grounded / vertical-speed bookkeeping. Returns the state and the realized
vertical displacement. -/
def game.playerMoveY (g : game) (cavemanRect : Rectangle) : game × ℤ :=
  let mv := g.tileMap.moveInY cavemanRect g.cavemanSpeedY
  let mo := g.moveCavemanInY cavemanRect mv.1
  let hitInY := mv.2 || mo.2
  let g := { g with cavemanIsOnGround := false }
  let g := if hitInY then
      (if g.cavemanSpeedY < 0 then { g with cavemanIsOnGround := true }
       else { g with cavemanSpeedY := 0 })
    else g
  (g, mo.1)

/-- The exit trigger of `game.Frame` (lines 572-583): begin the gate
sequence when the caveman stands at the gate's height inside the band in
front of it. -/
def game.triggerGate (g : game) (cavemanRect : Rectangle) : game :=
  let cavemanCenterX := cavemanRect.X + goDiv cavemanRect.W 2
  let band := if g.exitFacesRight then (g.exitX + g.gateGlowAW + 20, g.exitX + g.gateGlowAW + 100)
    else (g.exitX - 100, g.exitX - 20)
  if !g.enteringGate && decide (cavemanRect.Y = g.exitY) &&
      decide (cavemanCenterX > band.1) && decide (cavemanCenterX < band.2) then
    { g with enteringGate := true }
  else g

/-- Committing the caveman position and recentering the camera
(lines 585-593). -/
def game.commitPosition (g : game) (cavemanRect : Rectangle) : game :=
  let g := { g with cavemanX := cavemanRect.X - g.cavemanHitBox.X,
                    cavemanY := cavemanRect.Y - g.cavemanHitBox.Y }
  let cam := camera.centerAround g.camera (g.cavemanX + goDiv g.cavemanStandW 2)
    (g.cavemanY + goDiv g.cavemanStandH 2)
  let g := { g with camera := cam }
  if g.cavemanIsOnGround then { g with cavemanSpeedY := 0 } else g

/-- The idle gate glow and the animation counters (lines 595-615). -/
def game.glowCounterPhase (g : game) : game :=
  let gl := glowStep ( game.gateGlowRatio g, g.gateGlowDelta)
  let g := { g with gateGlowRatio := gl.1, gateGlowDelta := gl.2 }
  let g := { g with nextPushFrameChange := g.nextPushFrameChange + 1 }
  let g := if g.nextPushFrameChange > 10 then
      { g with nextPushFrameChange := 0, pushFrameIndex := goMod (g.pushFrameIndex + 1) 4 }
    else g
  let g := { g with nextWalkFrameChange := g.nextWalkFrameChange + 1 }
  if g.nextWalkFrameChange > 7 then
    { g with nextWalkFrameChange := 0, walkFrameIndex := goMod (g.walkFrameIndex + 1) 4 }
  else g

set_option maxHeartbeats 1000000 in
def game.midPhase (g : game) : game × Bool :=
  let g := g.rockPhase
  let cavemanDx := g.cavemanDxOf
  let g := g.applyFacing
  let g := g.applyJumpGravity
  let pm := g.playerMoveX cavemanDx
  let g := pm.1
  let cavemanPushing := pm.2.2
  let cavemanRect := g.cavemanBoundsOf
  let cavemanRect := { cavemanRect with X := cavemanRect.X + pm.2.1 }
  let py := g.playerMoveY cavemanRect
  let g := py.1
  let cavemanRect := { cavemanRect with Y := cavemanRect.Y + py.2 }
  let g := g.triggerGate cavemanRect
  let g := g.commitPosition cavemanRect
  let g := g.glowCounterPhase
  (g, cavemanPushing)

/-- The gate completion sequence of `game.Frame` (lines 656-679): while
entering, the `exitGlow` overlay ramps up to 1 by `cloudSpeed = 0.0077`,
then back down to 0, raising `levelDone` on reaching 0. -/
def game.gateStep (g : game) : game :=
  if g.enteringGate then
    (if !g.cloudDisappearing then
       (let glow := g.exitGlow + 77/10000
        if glow > 1 then { g with exitGlow := 1, cloudDisappearing := true }
        else { g with exitGlow := glow })
     else
       (let glow := g.exitGlow - 77/10000
        if glow < 0 then { g with exitGlow := 0, levelDone := true }
        else { g with exitGlow := glow }))
  else g

/-- Everything of `game.Frame` after the input flags are settled. -/
def game.stepAfterInput (g : game) : game × Bool :=
  let p := g.midPhase
  (p.1.gateStep, p.2)

/-- The `game.Frame` from the source, with the `cavemanPushing` flag (used only
to pick the sprite) returned alongside the state. -/
def game.FrameAux (g : game) (events : List InputEvent) : game × Bool :=
  ((g.handleEvents events).suppressInput).stepAfterInput

/-- The `game.Frame` from the source. -/
def game.Frame (g : game) (events : List InputEvent) : game :=
  (g.FrameAux events).1

/-! ## Level loading and the outer frame (`gameFrame`) -/

/-- The `Info` from the source (`info.json`). -/
structure Info where
  LevelCount : ℤ
  CavemanHitBox : Rectangle
  RockHitBox : Rectangle
deriving DecidableEq

/-- A decoded level, as produced by the external level parser: grid
dimensions and tile pixel size, plus the nonzero cells of the two layers in
traversal order. Each cell is `(x, y, id)` with the raw tile id. -/
structure Level where
  width : ℤ
  height : ℤ
  tileWidth : ℤ
  tileHeight : ℤ
  objectCells : List (ℤ × ℤ × ℤ)
  tileCells : List (ℤ × ℤ × ℤ)
deriving DecidableEq

/-- The external resource collaborators: decoded levels by index and the
sizes of the loaded images the simulation reads. -/
structure Env where
  levels : ℤ → Level
  tilesImageW : ℤ
  tilesImageH : ℤ
  cavemanStandW : ℤ
  cavemanStandH : ℤ
  gateGlowAW : ℤ

/-- The `tileMap.setSize` from the source. -/
def tileMap.setSize (m : tileMap) (w h : ℤ) : tileMap :=
  { m with width := w, height := h, tiles := List.replicate (w * h).toNat zeroTile }

/-- Writing through the pointer returned by `tileAt`: out-of-range writes
target the throwaway sentinel tile and are lost. -/
def tileMap.setTile (m : tileMap) (x y : ℤ) (t : tile) : tileMap :=
  if x < 0 ∨ y < 0 ∨ m.width ≤ x ∨ m.height ≤ y then m
  else { m with tiles := m.tiles.set (x + y * m.width).toNat t }

/-- One cell of the `objects` layer in `game.init`: place the player, the
gate, or append a rock, according to the offset-adjusted object id. -/
def placeObject (rockHitBox : Rectangle) (objIndexOffset tw th : ℤ) (g : game) (cell : ℤ × ℤ × ℤ) : game :=
  if cell.2.2 = 0 then g
  else
    let id := cell.2.2 - objIndexOffset
    let worldX := cell.1 * tw
    let worldY := cell.2.1 * th
    let g := if id = 0 then { g with cavemanFacesRight := false, cavemanX := worldX, cavemanY := worldY } else g
    let g := if id = 1 then { g with cavemanFacesRight := true, cavemanX := worldX, cavemanY := worldY } else g
    let g := if id = 2 then { g with exitFacesRight := false, exitX := worldX, exitY := worldY } else g
    let g := if id = 3 then { g with exitFacesRight := true, exitX := worldX, exitY := worldY } else g
    if id = 4 then
      { g with rocks := g.rocks ++
          [⟨⟨worldX + rockHitBox.X, worldY + rockHitBox.Y, rockHitBox.W, rockHitBox.H⟩, 0, 0, 0⟩] }
    else g

/-- One cell of the terrain layer `0` in `game.init`: set the tile's visual
source rectangle and solidity (`isSolid = id >= 1` after the decrement). -/
def applyTileCell (tileCountX tw th : ℤ) (m : tileMap) (cell : ℤ × ℤ × ℤ) : tileMap :=
  if cell.2.2 = 0 then m
  else
    let id := cell.2.2 - 1
    let tileX := goMod id tileCountX
    let tileY := goDiv id tileCountX
    m.setTile cell.1 cell.2.1 ⟨⟨tileX * tw, tileY * th, tw, th⟩, decide (id ≥ 1)⟩

/-- The `game.init` from the source, consuming an already-decoded level. -/
def game.init (g : game) (env : Env) (info : Info) (levelIndex : ℤ) : game :=
  let lvl := env.levels levelIndex
  let g := { g with cavemanHitBox := info.CavemanHitBox, rockHitBox := info.RockHitBox,
                    cavemanStandW := env.cavemanStandW, cavemanStandH := env.cavemanStandH,
                    gateGlowAW := env.gateGlowAW }
  let g := { g with tileMap :=
      { g.tileMap.setSize lvl.width lvl.height with tileW := lvl.tileWidth, tileH := lvl.tileHeight } }
  let tileCountX := goDiv env.tilesImageW g.tileMap.tileW
  let tileCountY := goDiv env.tilesImageH g.tileMap.tileH
  let objIndexOffset := 1 + tileCountX * tileCountY
  let g := lvl.objectCells.foldl (placeObject info.RockHitBox objIndexOffset g.tileMap.tileW g.tileMap.tileH) g
  let g := { g with tileMap := lvl.tileCells.foldl (applyTileCell tileCountX g.tileMap.tileW g.tileMap.tileH) g.tileMap }
  { g with camera := { g.camera with worldW := g.tileMap.worldSize.1, worldH := g.tileMap.worldSize.2 } }

/-- The Go zero value of `game` (fresh `&game{}`). -/
def zeroGame : game :=
  { camera := ⟨0, 0, 0, 0, 0, 0⟩
    levelDone := false
    enteringGate := false
    cloudDisappearing := false
    exitGlow := 0
    gateGlowRatio := 0
    gateGlowDelta := 0
    pushFrameIndex := 0
    nextPushFrameChange := 0
    cavemanX := 0
    cavemanY := 0
    cavemanSpeedY := 0
    cavemanIsOnGround := false
    cavemanFacesRight := false
    cavemanHitBox := ⟨0, 0, 0, 0⟩
    rockHitBox := ⟨0, 0, 0, 0⟩
    walkFrameIndex := 0
    nextWalkFrameChange := 0
    exitX := 0
    exitY := 0
    exitFacesRight := false
    rocks := []
    leftDown := false
    rightDown := false
    upDown := false
    tileMap := ⟨0, 0, 0, 0, []⟩
    cavemanStandW := 0
    cavemanStandH := 0
    gateGlowAW := 0 }

/-- The `gameFrame.newGame` from the source: a fresh `game` with
`gateGlowDelta = 0.02`, initialized from the current level. -/
def newGame (env : Env) (info : Info) (levelIndex : ℤ) : game :=
  game.init { zeroGame with gateGlowDelta := 1/50 } env info levelIndex

/-- The `gameFrame` from the source (simulation-relevant fields). -/
structure gameFrame where
  game : game
  levelIndex : ℤ
  won : Bool
  info : Info
deriving DecidableEq

/-- A key-up `KeyRestart` event, as tested by the restart loops. -/
def isRestartUp (e : InputEvent) : Bool :=
  decide (e.Key = Key.KeyRestart) && !e.Down

/-- The `gameFrame.Frame` from the source: the win screen waits for a restart;
otherwise a restart rebuilds the level and clears the events, the inner
frame runs, and a finished level advances (or wins the game). -/
def gameFrame.Frame (env : Env) (f : gameFrame) (events : List InputEvent) : gameFrame :=
  if f.won then
    (if events.any isRestartUp then
       { f with won := false, levelIndex := 0, game := newGame env f.info 0 }
     else f)
  else
    let fe : gameFrame × List InputEvent :=
      if events.any isRestartUp then ({ f with game := newGame env f.info f.levelIndex }, [])
      else (f, events)
    let f := fe.1
    let f := { f with game := f.game.Frame fe.2 }
    if f.game.levelFinished then
      (let li := f.levelIndex + 1
       if li ≥ f.info.LevelCount then { f with levelIndex := li, won := true }
       else { f with levelIndex := li, game := newGame env f.info li })
    else f

/-! ## Concrete instances used by counterexamples and witnesses -/

/-- A 1×1 map whose single 10×10 tile is solid. -/
def mapC1 : tileMap := ⟨1, 1, 10, 10, [⟨⟨0, 0, 10, 10⟩, true⟩]⟩

/-- A 4×1 map, tile size 10×10, with solid tiles covering world x ∈ [10, 30)
on its only row. -/
def mapC2 : tileMap :=
  ⟨4, 1, 10, 10, [zeroTile, ⟨⟨0, 0, 10, 10⟩, true⟩, ⟨⟨0, 0, 10, 10⟩, true⟩, zeroTile]⟩

/-- A 2×1 map whose left tile is solid. -/
def mapW1 : tileMap := ⟨2, 1, 10, 10, [⟨⟨0, 0, 10, 10⟩, true⟩, zeroTile]⟩

/-- Camera over a 2000×1000 world with an 800×600 screen. -/
def camWide : camera := ⟨0, 0, 800, 600, 2000, 1000⟩

/-- Camera over a 400×300 world with an 800×600 screen. -/
def camSmall : camera := ⟨0, 0, 800, 600, 400, 300⟩

/-- A game state in the middle of the gate-entering sequence. -/
def gEntering : game := { zeroGame with enteringGate := true, gateGlowDelta := 1/50 }

/-- A game state whose caveman stands against a wall with a rock beyond it:
grounded, holding Right, with the tile sweep of the requested displacement
returning zero. -/
def gBlocked : game :=
  { zeroGame with
      tileMap := mapC2
      cavemanHitBox := ⟨0, 0, 10, 10⟩
      cavemanIsOnGround := true
      rightDown := true
      rocks := [⟨⟨10, 0, 10, 10⟩, 0, 0, 0⟩] }

/-- A one-level environment for the outer-frame theorems. -/
def lvlW : Level := ⟨2, 1, 10, 10, [(0, 0, 3)], [(0, 0, 2), (1, 0, 1)]⟩

def envW : Env := ⟨fun _ => lvlW, 20, 10, 10, 12, 8⟩

def infoW : Info := ⟨3, ⟨0, 0, 10, 16⟩, ⟨2, 2, 12, 12⟩⟩

def gfW : gameFrame := ⟨newGame envW infoW 0, 0, false, infoW⟩

/-! ## Helper lemmas: Go division -/

theorem goDiv_le_of_mul_le {t a c : ℤ} (ht : 1 ≤ t) (hc : 0 ≤ c) (h : c * t ≤ a) :
    c ≤ goDiv a t := by
  have ha : 0 ≤ a := le_trans (mul_nonneg hc (by omega)) h
  unfold goDiv
  rw [Int.tdiv_eq_ediv ha (by omega)]
  exact (Int.le_ediv_iff_mul_le (by omega)).2 h

theorem goDiv_nonpos_of_neg {t a : ℤ} (ht : 1 ≤ t) (ha : a < 0) : goDiv a t ≤ 0 := by
  unfold goDiv
  have h1 : a.tdiv t = -((-a).tdiv t) := by
    rw [← Int.neg_tdiv]
    simp
  have h2 : (-a).tdiv t = (-a) / t := Int.tdiv_eq_ediv (by omega) (by omega)
  have h3 : 0 ≤ (-a) / t := Int.ediv_nonneg (by omega) (by omega)
  omega

theorem goDiv_mul_le {t a : ℤ} (ht : 1 ≤ t) (ha : 0 ≤ a) : goDiv a t * t ≤ a := by
  unfold goDiv
  rw [Int.tdiv_eq_ediv ha (by omega)]
  exact Int.ediv_mul_le a (by omega)

theorem lt_goDiv_add_one_mul {t a : ℤ} (ht : 1 ≤ t) (ha : 0 ≤ a) : a < (goDiv a t + 1) * t := by
  unfold goDiv
  rw [Int.tdiv_eq_ediv ha (by omega)]
  exact Int.lt_ediv_add_one_mul_self a (by omega)

theorem goDiv_le_of_lt_mul {t a c : ℤ} (ht : 1 ≤ t) (hc : 0 ≤ c) (h : a < (c + 1) * t) :
    goDiv a t ≤ c := by
  by_cases ha : 0 ≤ a
  · by_contra hlt
    push_neg at hlt
    have h1 : c + 1 ≤ goDiv a t := by omega
    have h2 : (c + 1) * t ≤ goDiv a t * t := mul_le_mul_of_nonneg_right h1 (by omega)
    have h3 : goDiv a t * t ≤ a := goDiv_mul_le ht ha
    omega
  · have := goDiv_nonpos_of_neg ht (by omega : a < 0)
    omega

theorem mul_le_of_le_goDiv {t hi c : ℤ} (ht : 1 ≤ t) (hc : 0 ≤ c) (hhi : 0 ≤ hi)
    (h : c ≤ goDiv hi t) : c * t ≤ hi := by
  have h1 : c * t ≤ goDiv hi t * t := mul_le_mul_of_nonneg_right h (by omega)
  have h2 : goDiv hi t * t ≤ hi := goDiv_mul_le ht hhi
  omega

theorem lt_add_one_mul_of_goDiv_le {t lo c : ℤ} (ht : 1 ≤ t) (hc : 0 ≤ c)
    (h : goDiv lo t ≤ c) : lo < (c + 1) * t := by
  by_cases hlo : 0 ≤ lo
  · have h1 : lo < (goDiv lo t + 1) * t := lt_goDiv_add_one_mul ht hlo
    have h2 : (goDiv lo t + 1) * t ≤ (c + 1) * t :=
      mul_le_mul_of_nonneg_right (by omega) (by omega)
    omega
  · have h1 : 1 * t ≤ (c + 1) * t := mul_le_mul_of_nonneg_right (by omega) (by omega)
    omega

/-! ## Helper lemmas: scan ranges and folds -/

theorem mem_intRange {a lo hi : ℤ} : a ∈ intRange lo hi ↔ lo ≤ a ∧ a ≤ hi := by
  simp only [intRange, List.mem_map, List.mem_range]
  constructor
  · rintro ⟨i, hi', rfl⟩
    omega
  · intro h
    exact ⟨(a - lo).toNat, by omega, by omega⟩

theorem mem_tilePairs {ty tx ty1 ty2 tx1 tx2 : ℤ} :
    (ty, tx) ∈ tilePairs ty1 ty2 tx1 tx2 ↔ (ty1 ≤ ty ∧ ty ≤ ty2) ∧ tx1 ≤ tx ∧ tx ≤ tx2 := by
  simp only [tilePairs, List.mem_flatMap, List.mem_map, mem_intRange, Prod.mk.injEq]
  constructor
  · rintro ⟨y, hy, x, hx, rfl, rfl⟩
    exact ⟨hy, hx⟩
  · rintro ⟨hy, hx⟩
    exact ⟨ty, hy, tx, hx, rfl, rfl⟩

theorem condMinFold_le_init (P : ℤ × ℤ → Bool) (f : ℤ × ℤ → ℤ) :
    ∀ (l : List (ℤ × ℤ)) (init : ℤ), condMinFold P f l init ≤ init := by
  intro l
  induction l with
  | nil => intro init; simp [condMinFold]
  | cons a l ih =>
    intro init
    have hstep : condMinFold P f (a :: l) init
        = condMinFold P f l (if P a then (if f a < init then f a else init) else init) := rfl
    rw [hstep]
    refine le_trans (ih _) ?_
    split <;> [skip; omega]
    split <;> omega

theorem le_condMinFold (P : ℤ × ℤ → Bool) (f : ℤ × ℤ → ℤ) (lb : ℤ) :
    ∀ (l : List (ℤ × ℤ)) (init : ℤ), lb ≤ init →
      (∀ p ∈ l, P p = true → lb ≤ f p) → lb ≤ condMinFold P f l init := by
  intro l
  induction l with
  | nil => intro init h _; simpa [condMinFold] using h
  | cons a l ih =>
    intro init hinit hall
    have hstep : condMinFold P f (a :: l) init
        = condMinFold P f l (if P a then (if f a < init then f a else init) else init) := rfl
    rw [hstep]
    refine ih _ ?_ (fun p hp hP => hall p (List.mem_cons_of_mem _ hp) hP)
    by_cases hPa : P a = true
    · have := hall a (List.mem_cons_self _ _) hPa
      simp only [hPa, if_true]
      split <;> omega
    · simp only [hPa]
      simpa using hinit

theorem condMinFold_le_f (P : ℤ × ℤ → Bool) (f : ℤ × ℤ → ℤ) {p : ℤ × ℤ} :
    ∀ (l : List (ℤ × ℤ)) (init : ℤ), p ∈ l → P p = true → condMinFold P f l init ≤ f p := by
  intro l
  induction l with
  | nil => intro init h; exact absurd h (List.not_mem_nil p)
  | cons a l ih =>
    intro init hp hP
    have hstep : condMinFold P f (a :: l) init
        = condMinFold P f l (if P a then (if f a < init then f a else init) else init) := rfl
    rw [hstep]
    rcases List.mem_cons.1 hp with rfl | hp'
    · refine le_trans (condMinFold_le_init P f l _) ?_
      simp only [hP, if_true]
      split <;> omega
    · exact ih _ hp' hP

theorem condMaxFold_init_le (P : ℤ × ℤ → Bool) (f : ℤ × ℤ → ℤ) :
    ∀ (l : List (ℤ × ℤ)) (init : ℤ), init ≤ condMaxFold P f l init := by
  intro l
  induction l with
  | nil => intro init; simp [condMaxFold]
  | cons a l ih =>
    intro init
    have hstep : condMaxFold P f (a :: l) init
        = condMaxFold P f l (if P a then (if f a > init then f a else init) else init) := rfl
    rw [hstep]
    refine le_trans ?_ (ih _)
    split <;> [skip; omega]
    split <;> omega

theorem condMaxFold_le (P : ℤ × ℤ → Bool) (f : ℤ × ℤ → ℤ) (ub : ℤ) :
    ∀ (l : List (ℤ × ℤ)) (init : ℤ), init ≤ ub →
      (∀ p ∈ l, P p = true → f p ≤ ub) → condMaxFold P f l init ≤ ub := by
  intro l
  induction l with
  | nil => intro init h _; simpa [condMaxFold] using h
  | cons a l ih =>
    intro init hinit hall
    have hstep : condMaxFold P f (a :: l) init
        = condMaxFold P f l (if P a then (if f a > init then f a else init) else init) := rfl
    rw [hstep]
    refine ih _ ?_ (fun p hp hP => hall p (List.mem_cons_of_mem _ hp) hP)
    by_cases hPa : P a = true
    · have := hall a (List.mem_cons_self _ _) hPa
      simp only [hPa, if_true]
      split <;> omega
    · simp only [hPa]
      simpa using hinit

theorem f_le_condMaxFold (P : ℤ × ℤ → Bool) (f : ℤ × ℤ → ℤ) {p : ℤ × ℤ} :
    ∀ (l : List (ℤ × ℤ)) (init : ℤ), p ∈ l → P p = true → f p ≤ condMaxFold P f l init := by
  intro l
  induction l with
  | nil => intro init h; exact absurd h (List.not_mem_nil p)
  | cons a l ih =>
    intro init hp hP
    have hstep : condMaxFold P f (a :: l) init
        = condMaxFold P f l (if P a then (if f a > init then f a else init) else init) := rfl
    rw [hstep]
    rcases List.mem_cons.1 hp with rfl | hp'
    · refine le_trans ?_ (condMaxFold_init_le P f l _)
      simp only [hP, if_true]
      split <;> omega
    · exact ih _ hp' hP

theorem solid_bounds {m : tileMap} {tx ty : ℤ} (h : (m.tileAt tx ty).isSolid = true) :
    0 ≤ tx ∧ 0 ≤ ty ∧ tx < m.width ∧ ty < m.height := by
  by_contra hcon
  have : tx < 0 ∨ ty < 0 ∨ m.width ≤ tx ∨ m.height ≤ ty := by omega
  rw [tileMap.tileAt, if_pos this] at h
  exact absurd h (by simp [zeroTile])

theorem toTileX_def (m : tileMap) (z : ℤ) : m.toTileX z = goDiv z m.tileW := rfl

theorem toTileY_def (m : tileMap) (z : ℤ) : m.toTileY z = goDiv z m.tileH := rfl

theorem toWorldX_def (m : tileMap) (z : ℤ) : m.toWorldX z = z * m.tileW := rfl

theorem toWorldY_def (m : tileMap) (z : ℤ) : m.toWorldY z = z * m.tileH := rfl

theorem moveInX_zero (m : tileMap) (s : Rectangle) : m.moveInX s 0 = (0, false) := by
  unfold tileMap.moveInX
  rw [if_neg (by omega), if_neg (by omega)]

theorem moveInY_zero (m : tileMap) (s : Rectangle) : m.moveInY s 0 = (0, false) := by
  unfold tileMap.moveInY
  rw [if_neg (by omega), if_neg (by omega)]

theorem moveInX_pos_fst (m : tileMap) (s : Rectangle) (dx : ℤ) (h : 0 < dx) :
    (m.moveInX s dx).1 =
      condMinFold (fun p => (m.tileAt p.2 p.1).isSolid) (fun p => m.toWorldX p.2 - 1)
        (tilePairs (m.toTileY s.Y) (m.toTileY (s.Y + s.H - 1)) (m.toTileX s.X)
          (m.toTileX (s.X + (s.W + dx) - 1)))
        (s.X + (s.W + dx) - 1) - s.W + 1 - s.X := by
  unfold tileMap.moveInX
  rw [if_neg (by omega), if_pos h]

theorem moveInX_neg_fst (m : tileMap) (s : Rectangle) (dx : ℤ) (h : dx < 0) :
    (m.moveInX s dx).1 =
      condMaxFold (fun p => (m.tileAt p.2 p.1).isSolid) (fun p => m.toWorldX (p.2 + 1))
        (tilePairs (m.toTileY s.Y) (m.toTileY (s.Y + s.H - 1)) (m.toTileX (s.X + dx))
          (m.toTileX (s.X + dx + (s.W - dx) - 1)))
        (s.X + dx) - s.X := by
  unfold tileMap.moveInX
  rw [if_pos h]

theorem moveInY_pos_fst (m : tileMap) (s : Rectangle) (dy : ℤ) (h : 0 < dy) :
    (m.moveInY s dy).1 =
      condMinFold (fun p => (m.tileAt p.2 p.1).isSolid) (fun p => m.toWorldY p.1 - 1)
        (tilePairs (m.toTileY s.Y) (m.toTileY (s.Y + (s.H + dy) - 1)) (m.toTileX s.X)
          (m.toTileX (s.X + s.W - 1)))
        (s.Y + (s.H + dy) - 1) - s.H + 1 - s.Y := by
  unfold tileMap.moveInY
  rw [if_neg (by omega), if_pos h]

theorem moveInY_neg_fst (m : tileMap) (s : Rectangle) (dy : ℤ) (h : dy < 0) :
    (m.moveInY s dy).1 =
      condMaxFold (fun p => (m.tileAt p.2 p.1).isSolid) (fun p => m.toWorldY (p.1 + 1))
        (tilePairs (m.toTileY (s.Y + dy)) (m.toTileY (s.Y + dy + (s.H - dy) - 1))
          (m.toTileX s.X) (m.toTileX (s.X + s.W - 1)))
        (s.Y + dy) - s.Y := by
  unfold tileMap.moveInY
  rw [if_pos h]

/-- Rightward sweep correctness: starting clear of all solid tiles, the
rectangle moved by the realized displacement is still clear. -/
theorem moveInX_pos_clear (m : tileMap) (s : Rectangle) (dx : ℤ)
    (htw : 1 ≤ m.tileW) (hth : 1 ≤ m.tileH) (hW : 1 ≤ s.W)
    (hdx : 0 < dx) (hclear : ¬ m.overlapsSolid s) :
    ¬ m.overlapsSolid { s with X := s.X + (m.moveInX s dx).1 } := by
  rw [tileMap.overlapsSolid]
  push_neg
  intro tx ty hsolid
  rw [moveInX_pos_fst m s dx hdx]
  set NR := condMinFold (fun p => (m.tileAt p.2 p.1).isSolid) (fun p => m.toWorldX p.2 - 1)
    (tilePairs (m.toTileY s.Y) (m.toTileY (s.Y + s.H - 1)) (m.toTileX s.X)
      (m.toTileX (s.X + (s.W + dx) - 1)))
    (s.X + (s.W + dx) - 1) with hNRdef
  intro hovl
  simp only [Rectangle.overlaps, tileMap.tileRect, toWorldX_def, toWorldY_def,
    Bool.and_eq_true, decide_eq_true_eq] at hovl
  obtain ⟨⟨⟨hx1, hy1⟩, hx2⟩, hy2⟩ := hovl
  obtain ⟨htx0, hty0, -, -⟩ := solid_bounds hsolid
  have hNR_init : NR ≤ s.X + (s.W + dx) - 1 := by
    rw [hNRdef]; exact condMinFold_le_init _ _ _ _
  have hmulY : 0 ≤ ty * m.tileH := mul_nonneg hty0 (by omega)
  have hYH : 0 ≤ s.Y + s.H - 1 := by omega
  have hrow1 : m.toTileY s.Y ≤ ty := by
    rw [toTileY_def]
    refine goDiv_le_of_lt_mul hth hty0 ?_
    have h' : (ty + 1) * m.tileH = ty * m.tileH + m.tileH := by ring
    omega
  have hrow2 : ty ≤ m.toTileY (s.Y + s.H - 1) := by
    rw [toTileY_def]
    exact goDiv_le_of_mul_le hth hty0 (by omega)
  have hNR_lb : s.X + s.W - 1 ≤ NR := by
    rw [hNRdef]
    refine le_condMinFold _ _ _ _ _ (by omega) ?_
    rintro ⟨py, px⟩ hmem hsol
    obtain ⟨⟨hpy1, hpy2⟩, hpx1, hpx2⟩ := mem_tilePairs.1 hmem
    obtain ⟨hpx0, hpy0, -, -⟩ := solid_bounds hsol
    simp only [toWorldX_def]
    by_contra hlt
    push_neg at hlt
    apply hclear
    refine ⟨px, py, hsol, ?_⟩
    simp only [Rectangle.overlaps, tileMap.tileRect, toWorldX_def, toWorldY_def,
      Bool.and_eq_true, decide_eq_true_eq]
    rw [toTileY_def] at hpy1 hpy2
    rw [toTileX_def] at hpx1 hpx2
    have hov2 : py * m.tileH ≤ s.Y + s.H - 1 := mul_le_of_le_goDiv hth hpy0 hYH hpy2
    have hov3 : s.X < (px + 1) * m.tileW := lt_add_one_mul_of_goDiv_le htw hpx0 hpx1
    have hov4 : s.Y < (py + 1) * m.tileH := lt_add_one_mul_of_goDiv_le hth hpy0 hpy1
    have he3 : (px + 1) * m.tileW = px * m.tileW + m.tileW := by ring
    have he4 : (py + 1) * m.tileH = py * m.tileH + m.tileH := by ring
    refine ⟨⟨⟨by omega, by omega⟩, by omega⟩, by omega⟩
  by_cases hcase1 : s.X + (s.W + dx) ≤ tx * m.tileW
  · omega
  · by_cases hcase2 : (tx + 1) * m.tileW ≤ s.X
    · have he : (tx + 1) * m.tileW = tx * m.tileW + m.tileW := by ring
      omega
    · push_neg at hcase1 hcase2
      have hcol1 : m.toTileX s.X ≤ tx := by
        rw [toTileX_def]
        exact goDiv_le_of_lt_mul htw htx0 hcase2
      have hcol2 : tx ≤ m.toTileX (s.X + (s.W + dx) - 1) := by
        rw [toTileX_def]
        exact goDiv_le_of_mul_le htw htx0 (by omega)
      have hmem : (ty, tx) ∈ tilePairs (m.toTileY s.Y) (m.toTileY (s.Y + s.H - 1))
          (m.toTileX s.X) (m.toTileX (s.X + (s.W + dx) - 1)) :=
        mem_tilePairs.2 ⟨⟨hrow1, hrow2⟩, hcol1, hcol2⟩
      have hle : NR ≤ tx * m.tileW - 1 := by
        rw [hNRdef]
        have := condMinFold_le_f (fun p => (m.tileAt p.2 p.1).isSolid)
          (fun p => m.toWorldX p.2 - 1) _ (s.X + (s.W + dx) - 1) hmem hsolid
        simpa only [toWorldX_def] using this
      omega

/-- Leftward sweep correctness (start in the nonnegative quadrant). -/
theorem moveInX_neg_clear (m : tileMap) (s : Rectangle) (dx : ℤ)
    (htw : 1 ≤ m.tileW) (hth : 1 ≤ m.tileH) (hW : 1 ≤ s.W) (hX0 : 0 ≤ s.X)
    (hdx : dx < 0) (hclear : ¬ m.overlapsSolid s) :
    ¬ m.overlapsSolid { s with X := s.X + (m.moveInX s dx).1 } := by
  rw [tileMap.overlapsSolid]
  push_neg
  intro tx ty hsolid
  rw [moveInX_neg_fst m s dx hdx,
    show s.X + dx + (s.W - dx) - 1 = s.X + s.W - 1 from by ring]
  set NX := condMaxFold (fun p => (m.tileAt p.2 p.1).isSolid) (fun p => m.toWorldX (p.2 + 1))
    (tilePairs (m.toTileY s.Y) (m.toTileY (s.Y + s.H - 1)) (m.toTileX (s.X + dx))
      (m.toTileX (s.X + s.W - 1)))
    (s.X + dx) with hNXdef
  intro hovl
  simp only [Rectangle.overlaps, tileMap.tileRect, toWorldX_def, toWorldY_def,
    Bool.and_eq_true, decide_eq_true_eq] at hovl
  obtain ⟨⟨⟨hx1, hy1⟩, hx2⟩, hy2⟩ := hovl
  obtain ⟨htx0, hty0, -, -⟩ := solid_bounds hsolid
  have hNX_init : s.X + dx ≤ NX := by
    rw [hNXdef]; exact condMaxFold_init_le _ _ _ _
  have hmulY : 0 ≤ ty * m.tileH := mul_nonneg hty0 (by omega)
  have hYH : 0 ≤ s.Y + s.H - 1 := by omega
  have hXW : 0 ≤ s.X + s.W - 1 := by omega
  have hrow1 : m.toTileY s.Y ≤ ty := by
    rw [toTileY_def]
    refine goDiv_le_of_lt_mul hth hty0 ?_
    have h' : (ty + 1) * m.tileH = ty * m.tileH + m.tileH := by ring
    omega
  have hrow2 : ty ≤ m.toTileY (s.Y + s.H - 1) := by
    rw [toTileY_def]
    exact goDiv_le_of_mul_le hth hty0 (by omega)
  have hNX_ub : NX ≤ s.X := by
    rw [hNXdef]
    refine condMaxFold_le _ _ _ _ _ (by omega) ?_
    rintro ⟨py, px⟩ hmem hsol
    obtain ⟨⟨hpy1, hpy2⟩, hpx1, hpx2⟩ := mem_tilePairs.1 hmem
    obtain ⟨hpx0, hpy0, -, -⟩ := solid_bounds hsol
    simp only [toWorldX_def]
    by_contra hlt
    push_neg at hlt
    apply hclear
    refine ⟨px, py, hsol, ?_⟩
    simp only [Rectangle.overlaps, tileMap.tileRect, toWorldX_def, toWorldY_def,
      Bool.and_eq_true, decide_eq_true_eq]
    rw [toTileY_def] at hpy1 hpy2
    rw [toTileX_def] at hpx2
    have hov2 : py * m.tileH ≤ s.Y + s.H - 1 := mul_le_of_le_goDiv hth hpy0 hYH hpy2
    have hov3 : px * m.tileW ≤ s.X + s.W - 1 := mul_le_of_le_goDiv htw hpx0 hXW hpx2
    have hov4 : s.Y < (py + 1) * m.tileH := lt_add_one_mul_of_goDiv_le hth hpy0 hpy1
    have he3 : (px + 1) * m.tileW = px * m.tileW + m.tileW := by ring
    have he4 : (py + 1) * m.tileH = py * m.tileH + m.tileH := by ring
    refine ⟨⟨⟨by omega, by omega⟩, by omega⟩, by omega⟩
  by_cases hcase1 : (tx + 1) * m.tileW ≤ s.X + dx
  · have he : (tx + 1) * m.tileW = tx * m.tileW + m.tileW := by ring
    omega
  · by_cases hcase2 : s.X + s.W ≤ tx * m.tileW
    · omega
    · push_neg at hcase1 hcase2
      have hcol1 : m.toTileX (s.X + dx) ≤ tx := by
        rw [toTileX_def]
        exact goDiv_le_of_lt_mul htw htx0 hcase1
      have hcol2 : tx ≤ m.toTileX (s.X + s.W - 1) := by
        rw [toTileX_def]
        exact goDiv_le_of_mul_le htw htx0 (by omega)
      have hmem : (ty, tx) ∈ tilePairs (m.toTileY s.Y) (m.toTileY (s.Y + s.H - 1))
          (m.toTileX (s.X + dx)) (m.toTileX (s.X + s.W - 1)) :=
        mem_tilePairs.2 ⟨⟨hrow1, hrow2⟩, hcol1, hcol2⟩
      have hge : (tx + 1) * m.tileW ≤ NX := by
        rw [hNXdef]
        have := f_le_condMaxFold (fun p => (m.tileAt p.2 p.1).isSolid)
          (fun p => m.toWorldX (p.2 + 1)) _ (s.X + dx) hmem hsolid
        simpa only [toWorldX_def] using this
      have he : (tx + 1) * m.tileW = tx * m.tileW + m.tileW := by ring
      omega

/-- Downward (positive-dy) sweep correctness. -/
theorem moveInY_pos_clear (m : tileMap) (s : Rectangle) (dy : ℤ)
    (htw : 1 ≤ m.tileW) (hth : 1 ≤ m.tileH) (hH : 1 ≤ s.H)
    (hdy : 0 < dy) (hclear : ¬ m.overlapsSolid s) :
    ¬ m.overlapsSolid { s with Y := s.Y + (m.moveInY s dy).1 } := by
  rw [tileMap.overlapsSolid]
  push_neg
  intro tx ty hsolid
  rw [moveInY_pos_fst m s dy hdy]
  set NB := condMinFold (fun p => (m.tileAt p.2 p.1).isSolid) (fun p => m.toWorldY p.1 - 1)
    (tilePairs (m.toTileY s.Y) (m.toTileY (s.Y + (s.H + dy) - 1)) (m.toTileX s.X)
      (m.toTileX (s.X + s.W - 1)))
    (s.Y + (s.H + dy) - 1) with hNBdef
  intro hovl
  simp only [Rectangle.overlaps, tileMap.tileRect, toWorldX_def, toWorldY_def,
    Bool.and_eq_true, decide_eq_true_eq] at hovl
  obtain ⟨⟨⟨hx1, hy1⟩, hx2⟩, hy2⟩ := hovl
  obtain ⟨htx0, hty0, -, -⟩ := solid_bounds hsolid
  have hNB_init : NB ≤ s.Y + (s.H + dy) - 1 := by
    rw [hNBdef]; exact condMinFold_le_init _ _ _ _
  have hmulX : 0 ≤ tx * m.tileW := mul_nonneg htx0 (by omega)
  have hXW : 0 ≤ s.X + s.W - 1 := by omega
  have hcol1 : m.toTileX s.X ≤ tx := by
    rw [toTileX_def]
    refine goDiv_le_of_lt_mul htw htx0 ?_
    have h' : (tx + 1) * m.tileW = tx * m.tileW + m.tileW := by ring
    omega
  have hcol2 : tx ≤ m.toTileX (s.X + s.W - 1) := by
    rw [toTileX_def]
    exact goDiv_le_of_mul_le htw htx0 (by omega)
  have hNB_lb : s.Y + s.H - 1 ≤ NB := by
    rw [hNBdef]
    refine le_condMinFold _ _ _ _ _ (by omega) ?_
    rintro ⟨py, px⟩ hmem hsol
    obtain ⟨⟨hpy1, hpy2⟩, hpx1, hpx2⟩ := mem_tilePairs.1 hmem
    obtain ⟨hpx0, hpy0, -, -⟩ := solid_bounds hsol
    simp only [toWorldY_def]
    by_contra hlt
    push_neg at hlt
    apply hclear
    refine ⟨px, py, hsol, ?_⟩
    simp only [Rectangle.overlaps, tileMap.tileRect, toWorldX_def, toWorldY_def,
      Bool.and_eq_true, decide_eq_true_eq]
    rw [toTileX_def] at hpx1 hpx2
    rw [toTileY_def] at hpy1
    have hov2 : px * m.tileW ≤ s.X + s.W - 1 := mul_le_of_le_goDiv htw hpx0 hXW hpx2
    have hov3 : s.X < (px + 1) * m.tileW := lt_add_one_mul_of_goDiv_le htw hpx0 hpx1
    have hov4 : s.Y < (py + 1) * m.tileH := lt_add_one_mul_of_goDiv_le hth hpy0 hpy1
    have he3 : (px + 1) * m.tileW = px * m.tileW + m.tileW := by ring
    have he4 : (py + 1) * m.tileH = py * m.tileH + m.tileH := by ring
    refine ⟨⟨⟨by omega, by omega⟩, by omega⟩, by omega⟩
  by_cases hcase1 : s.Y + (s.H + dy) ≤ ty * m.tileH
  · omega
  · by_cases hcase2 : (ty + 1) * m.tileH ≤ s.Y
    · have he : (ty + 1) * m.tileH = ty * m.tileH + m.tileH := by ring
      omega
    · push_neg at hcase1 hcase2
      have hrow1 : m.toTileY s.Y ≤ ty := by
        rw [toTileY_def]
        exact goDiv_le_of_lt_mul hth hty0 hcase2
      have hrow2 : ty ≤ m.toTileY (s.Y + (s.H + dy) - 1) := by
        rw [toTileY_def]
        exact goDiv_le_of_mul_le hth hty0 (by omega)
      have hmem : (ty, tx) ∈ tilePairs (m.toTileY s.Y) (m.toTileY (s.Y + (s.H + dy) - 1))
          (m.toTileX s.X) (m.toTileX (s.X + s.W - 1)) :=
        mem_tilePairs.2 ⟨⟨hrow1, hrow2⟩, hcol1, hcol2⟩
      have hle : NB ≤ ty * m.tileH - 1 := by
        rw [hNBdef]
        have := condMinFold_le_f (fun p => (m.tileAt p.2 p.1).isSolid)
          (fun p => m.toWorldY p.1 - 1) _ (s.Y + (s.H + dy) - 1) hmem hsolid
        simpa only [toWorldY_def] using this
      omega

/-- Upward (negative-dy) sweep correctness (start in the nonnegative
quadrant). -/
theorem moveInY_neg_clear (m : tileMap) (s : Rectangle) (dy : ℤ)
    (htw : 1 ≤ m.tileW) (hth : 1 ≤ m.tileH) (hH : 1 ≤ s.H) (hY0 : 0 ≤ s.Y)
    (hdy : dy < 0) (hclear : ¬ m.overlapsSolid s) :
    ¬ m.overlapsSolid { s with Y := s.Y + (m.moveInY s dy).1 } := by
  rw [tileMap.overlapsSolid]
  push_neg
  intro tx ty hsolid
  rw [moveInY_neg_fst m s dy hdy,
    show s.Y + dy + (s.H - dy) - 1 = s.Y + s.H - 1 from by ring]
  set NY := condMaxFold (fun p => (m.tileAt p.2 p.1).isSolid) (fun p => m.toWorldY (p.1 + 1))
    (tilePairs (m.toTileY (s.Y + dy)) (m.toTileY (s.Y + s.H - 1)) (m.toTileX s.X)
      (m.toTileX (s.X + s.W - 1)))
    (s.Y + dy) with hNYdef
  intro hovl
  simp only [Rectangle.overlaps, tileMap.tileRect, toWorldX_def, toWorldY_def,
    Bool.and_eq_true, decide_eq_true_eq] at hovl
  obtain ⟨⟨⟨hx1, hy1⟩, hx2⟩, hy2⟩ := hovl
  obtain ⟨htx0, hty0, -, -⟩ := solid_bounds hsolid
  have hNY_init : s.Y + dy ≤ NY := by
    rw [hNYdef]; exact condMaxFold_init_le _ _ _ _
  have hmulX : 0 ≤ tx * m.tileW := mul_nonneg htx0 (by omega)
  have hXW : 0 ≤ s.X + s.W - 1 := by omega
  have hYH : 0 ≤ s.Y + s.H - 1 := by omega
  have hcol1 : m.toTileX s.X ≤ tx := by
    rw [toTileX_def]
    refine goDiv_le_of_lt_mul htw htx0 ?_
    have h' : (tx + 1) * m.tileW = tx * m.tileW + m.tileW := by ring
    omega
  have hcol2 : tx ≤ m.toTileX (s.X + s.W - 1) := by
    rw [toTileX_def]
    exact goDiv_le_of_mul_le htw htx0 (by omega)
  have hNY_ub : NY ≤ s.Y := by
    rw [hNYdef]
    refine condMaxFold_le _ _ _ _ _ (by omega) ?_
    rintro ⟨py, px⟩ hmem hsol
    obtain ⟨⟨hpy1, hpy2⟩, hpx1, hpx2⟩ := mem_tilePairs.1 hmem
    obtain ⟨hpx0, hpy0, -, -⟩ := solid_bounds hsol
    simp only [toWorldY_def]
    by_contra hlt
    push_neg at hlt
    apply hclear
    refine ⟨px, py, hsol, ?_⟩
    simp only [Rectangle.overlaps, tileMap.tileRect, toWorldX_def, toWorldY_def,
      Bool.and_eq_true, decide_eq_true_eq]
    rw [toTileX_def] at hpx1 hpx2
    rw [toTileY_def] at hpy2
    have hov2 : px * m.tileW ≤ s.X + s.W - 1 := mul_le_of_le_goDiv htw hpx0 hXW hpx2
    have hov3 : py * m.tileH ≤ s.Y + s.H - 1 := mul_le_of_le_goDiv hth hpy0 hYH hpy2
    have hov4 : s.X < (px + 1) * m.tileW := lt_add_one_mul_of_goDiv_le htw hpx0 hpx1
    have he3 : (px + 1) * m.tileW = px * m.tileW + m.tileW := by ring
    have he4 : (py + 1) * m.tileH = py * m.tileH + m.tileH := by ring
    refine ⟨⟨⟨by omega, by omega⟩, by omega⟩, by omega⟩
  by_cases hcase1 : (ty + 1) * m.tileH ≤ s.Y + dy
  · have he : (ty + 1) * m.tileH = ty * m.tileH + m.tileH := by ring
    omega
  · by_cases hcase2 : s.Y + s.H ≤ ty * m.tileH
    · omega
    · push_neg at hcase1 hcase2
      have hrow1 : m.toTileY (s.Y + dy) ≤ ty := by
        rw [toTileY_def]
        exact goDiv_le_of_lt_mul hth hty0 hcase1
      have hrow2 : ty ≤ m.toTileY (s.Y + s.H - 1) := by
        rw [toTileY_def]
        exact goDiv_le_of_mul_le hth hty0 (by omega)
      have hmem : (ty, tx) ∈ tilePairs (m.toTileY (s.Y + dy)) (m.toTileY (s.Y + s.H - 1))
          (m.toTileX s.X) (m.toTileX (s.X + s.W - 1)) :=
        mem_tilePairs.2 ⟨⟨hrow1, hrow2⟩, hcol1, hcol2⟩
      have hge : (ty + 1) * m.tileH ≤ NY := by
        rw [hNYdef]
        have := f_le_condMaxFold (fun p => (m.tileAt p.2 p.1).isSolid)
          (fun p => m.toWorldY (p.1 + 1)) _ (s.Y + dy) hmem hsolid
        simpa only [toWorldY_def] using this
      have he : (ty + 1) * m.tileH = ty * m.tileH + m.tileH := by ring
      omega

theorem overlapsSolid_iff (m : tileMap) (r : Rectangle) :
    m.overlapsSolid r ↔ overlapsSolidB m r = true := by
  constructor
  · rintro ⟨tx, ty, hs, hov⟩
    obtain ⟨h1, h2, h3, h4⟩ := solid_bounds hs
    unfold overlapsSolidB
    rw [List.any_eq_true]
    refine ⟨tx, mem_intRange.2 ⟨h1, by omega⟩, ?_⟩
    rw [List.any_eq_true]
    exact ⟨ty, mem_intRange.2 ⟨h2, by omega⟩, by rw [Bool.and_eq_true]; exact ⟨hs, hov⟩⟩
  · intro h
    unfold overlapsSolidB at h
    rw [List.any_eq_true] at h
    obtain ⟨tx, -, h⟩ := h
    rw [List.any_eq_true] at h
    obtain ⟨ty, -, h⟩ := h
    rw [Bool.and_eq_true] at h
    exact ⟨tx, ty, h.1, h.2⟩

/-- Claim C1 (counterexample): with a requested displacement of zero and a
starting rectangle already overlapping a solid tile, `moveInX` is a no-op
and the moved rectangle still overlaps a solid tile, so the claimed
universal guarantee fails. -/
theorem moveIn_zero_dx_leaves_overlap_cex :
    (mapC1.moveInX ⟨0, 0, 10, 10⟩ 0).1 = 0 ∧
    mapC1.overlapsSolid
      { Rectangle.mk 0 0 10 10 with X := 0 + (mapC1.moveInX ⟨0, 0, 10, 10⟩ 0).1 } :=
  ⟨by decide, ⟨0, 0, by decide, by decide⟩⟩

/-- Claim C1 (amended): for a map with positive tile dimensions and a
positive-size starting rectangle in the nonnegative quadrant that overlaps
no solid tile, the rectangle translated by the realized displacement of
`moveInX` (respectively `moveInY`) overlaps no solid tile, for every
requested displacement. -/
theorem moveIn_clear_of_start_clear (m : tileMap) (s : Rectangle) (d : ℤ)
    (htw : 1 ≤ m.tileW) (hth : 1 ≤ m.tileH) (hW : 1 ≤ s.W) (hH : 1 ≤ s.H)
    (hX0 : 0 ≤ s.X) (hY0 : 0 ≤ s.Y) (hclear : ¬ m.overlapsSolid s) :
    ¬ m.overlapsSolid { s with X := s.X + (m.moveInX s d).1 } ∧
    ¬ m.overlapsSolid { s with Y := s.Y + (m.moveInY s d).1 } := by
  constructor
  · rcases lt_trichotomy d 0 with h | rfl | h
    · exact moveInX_neg_clear m s d htw hth hW hX0 h hclear
    · have he : { s with X := s.X + (m.moveInX s 0).1 } = s := by
        rw [moveInX_zero]
        show ({ s with X := s.X + 0 } : Rectangle) = s
        rw [add_zero]
      rw [he]
      exact hclear
    · exact moveInX_pos_clear m s d htw hth hW h hclear
  · rcases lt_trichotomy d 0 with h | rfl | h
    · exact moveInY_neg_clear m s d htw hth hH hY0 h hclear
    · have he : { s with Y := s.Y + (m.moveInY s 0).1 } = s := by
        rw [moveInY_zero]
        show ({ s with Y := s.Y + 0 } : Rectangle) = s
        rw [add_zero]
      rw [he]
      exact hclear
    · exact moveInY_pos_clear m s d htw hth hH h hclear

/-- Claim C1 (witness): the amended sweep-correctness theorem applied to a
concrete map (solid left tile), a clear starting rectangle, and a leftward
request of 10. -/
theorem moveIn_clear_of_start_clear_witness :
    ¬ mapW1.overlapsSolid
        { Rectangle.mk 15 0 4 10 with X := 15 + (mapW1.moveInX ⟨15, 0, 4, 10⟩ (-10)).1 } ∧
    ¬ mapW1.overlapsSolid
        { Rectangle.mk 15 0 4 10 with Y := 0 + (mapW1.moveInY ⟨15, 0, 4, 10⟩ (-10)).1 } :=
  moveIn_clear_of_start_clear mapW1 ⟨15, 0, 4, 10⟩ (-10) (by decide) (by decide) (by decide)
    (by decide) (by decide) (by decide) (by rw [overlapsSolid_iff]; decide)

/-- Claim C2 (counterexample): on a map whose solid tiles cover world
x ∈ [10, 30) on the sweep row, a width-16 rectangle at x = 0 — which
already overlaps the solid region — requesting dx = +20 realizes
dx = -6 (pushed back), not the claimed 9. -/
theorem moveInX_width16_cex :
    mapC2.moveInX ⟨0, 0, 16, 10⟩ 20 = (-6, true) ∧ (-6 : ℤ) ≠ 9 := by decide

/-- Claim C2 (amended): in the same configuration the call returns realized
dx = -6 — the rectangle is moved back so that its right edge ends one pixel
before the nearest solid tile's left edge at x = 10 — and hitWall = true. -/
theorem moveInX_width16_amended : mapC2.moveInX ⟨0, 0, 16, 10⟩ 20 = (-6, true) := by decide

/-- Claim C5: camera clamping — centering a 800×600 screen on (50,50) in a
2000×1000 world clamps to offset (0,0); centering on (1990,990) clamps to
(-1200,-400); and over a 400×300 world every centering point yields the
letterboxing offset (200,150). -/
theorem camera_centerAround_cases :
    ((camWide.centerAround 50 50).offsetX = 0 ∧ (camWide.centerAround 50 50).offsetY = 0) ∧
    ((camWide.centerAround 1990 990).offsetX = -1200 ∧
      (camWide.centerAround 1990 990).offsetY = -400) ∧
    (∀ x y : ℤ, (camSmall.centerAround x y).offsetX = 200 ∧
      (camSmall.centerAround x y).offsetY = 150) := by
  refine ⟨by decide, by decide, ?_⟩
  intro x y
  unfold camera.centerAround
  norm_num [camSmall, goDiv]
  decide

theorem ratTrunc_nonneg_eq_floor (q : ℚ) (h : 0 ≤ q) : ratTrunc q = ⌊q⌋ := by
  unfold ratTrunc
  rw [Int.tdiv_eq_ediv (Rat.num_nonneg.2 h) (by positivity), Rat.floor_def]

theorem ratTrunc_neg_eq_ceil (q : ℚ) (h : q < 0) : ratTrunc q = ⌈q⌉ := by
  unfold ratTrunc
  have hnum : q.num < 0 := Rat.num_neg.2 h
  have h1 : q.num.tdiv (q.den : ℤ) = -((-q.num).tdiv (q.den : ℤ)) := by
    rw [← Int.neg_tdiv]
    simp
  rw [h1, Int.tdiv_eq_ediv (by omega) (by positivity)]
  have h2 : ⌊-q⌋ = (-q).num / ((-q).den : ℤ) := Rat.floor_def
  rw [Rat.neg_num, Rat.neg_den] at h2
  rw [← h2, Int.floor_neg, neg_neg]

/-- Claim C7: the `round` closure of `rock.update` is round-half-away-from-
zero: `⌊x + 0.5⌋` for `x ≥ 0` and `⌈x - 0.5⌉` for `x < 0`; in particular
±0.5 rounds outward from zero. -/
theorem rock_round_half_away_from_zero :
    (∀ x : ℚ, goRound x = if x < 0 then ⌈x - 1/2⌉ else ⌊x + 1/2⌋) ∧
    goRound (1/2) = 1 ∧ goRound (-(1/2)) = -1 := by
  have hmain : ∀ x : ℚ, goRound x = if x < 0 then ⌈x - 1/2⌉ else ⌊x + 1/2⌋ := by
    intro x
    unfold goRound
    by_cases h : x < 0
    · rw [if_pos h, if_pos h, ratTrunc_neg_eq_ceil _ (by linarith)]
    · push_neg at h
      rw [if_neg (by linarith), if_neg (by linarith), ratTrunc_nonneg_eq_floor _ (by linarith)]
  refine ⟨hmain, ?_, ?_⟩
  · rw [hmain]
    norm_num
  · rw [hmain]
    norm_num
    rw [show ((-1 : ℚ)) = ((-1 : ℤ) : ℚ) from by norm_num, Int.ceil_intCast]

theorem rockPushSpeed_bounds (s : ℚ) (d : ℤ) :
    -3 ≤ rockPushSpeed s d ∧ rockPushSpeed s d ≤ 3 := by
  simp only [rockPushSpeed]
  split_ifs <;> constructor <;> linarith

theorem frictionStep_bounds (s : ℚ) (h1 : -3 ≤ s) (h2 : s ≤ 3) :
    -3 ≤ frictionStep s ∧ frictionStep s ≤ 3 := by
  simp only [frictionStep]
  split_ifs <;> constructor <;> linarith

theorem frictionStep_pos_eq (s : ℚ) (h : 0 < s) : frictionStep s = max (s - 1/40) 0 := by
  simp only [frictionStep]
  rcases lt_or_le s (1/40) with hs | hs
  · rw [if_pos h, if_pos (show s - 1/40 < 0 by linarith),
      if_neg (show ¬((0 : ℚ) < 0) by norm_num), max_eq_right (by linarith)]
  · rw [if_pos h, if_neg (show ¬(s - 1/40 < 0) by linarith),
      if_neg (show ¬(s - 1/40 < 0) by linarith), max_eq_left (by linarith)]

theorem frictionStep_neg_eq (s : ℚ) (h : s < 0) : frictionStep s = min (s + 1/40) 0 := by
  simp only [frictionStep]
  rcases lt_or_le (-(1/40)) s with hs | hs
  · rw [if_neg (show ¬(s > 0) by linarith), if_pos (show s < 0 by linarith),
      if_pos (show s + 1/40 > 0 by linarith), min_eq_right (by linarith)]
  · rw [if_neg (show ¬(s > 0) by linarith), if_pos (show s < 0 by linarith),
      if_neg (show ¬(s + 1/40 > 0) by linarith), min_eq_left (by linarith)]

theorem applyRockOps_bounds (ops : List rockOp) :
    ∀ s : ℚ, -3 ≤ s → s ≤ 3 → -3 ≤ applyRockOps s ops ∧ applyRockOps s ops ≤ 3 := by
  induction ops with
  | nil => intro s h1 h2; exact ⟨h1, h2⟩
  | cons op ops ih =>
    intro s h1 h2
    have hstep : applyRockOps s (op :: ops) = applyRockOps (applyRockOp s op) ops := rfl
    rw [hstep]
    cases op with
    | push d =>
      obtain ⟨hp1, hp2⟩ := rockPushSpeed_bounds s d
      exact ih _ hp1 hp2
    | friction =>
      obtain ⟨hf1, hf2⟩ := frictionStep_bounds s h1 h2
      exact ih _ hf1 hf2

/-- Claim C4: a rock's horizontal speed stays within [-3, 3] across every
finite interleaving of push calls and per-frame friction updates; a push
always clamps into [-3, 3], and friction moves the speed toward zero by
0.025 without overshooting past zero. -/
theorem rock_speed_bounded (s : ℚ) (ops : List rockOp) (h1 : -3 ≤ s) (h2 : s ≤ 3) :
    (-3 ≤ applyRockOps s ops ∧ applyRockOps s ops ≤ 3) ∧
    (∀ (v : ℚ) (d : ℤ), -3 ≤ rockPushSpeed v d ∧ rockPushSpeed v d ≤ 3) ∧
    (∀ v : ℚ, 0 < v → frictionStep v = max (v - 1/40) 0) ∧
    (∀ v : ℚ, v < 0 → frictionStep v = min (v + 1/40) 0) ∧
    frictionStep 0 = 0 :=
  ⟨applyRockOps_bounds ops s h1 h2, rockPushSpeed_bounds, frictionStep_pos_eq,
    frictionStep_neg_eq, by norm_num [frictionStep]⟩

/-- Claim C4 (witness): the bound theorem applied to the spawn speed 0 and
a concrete push-then-friction sequence. -/
theorem rock_speed_bounded_witness :
    (-3 ≤ applyRockOps 0 [rockOp.push 1, rockOp.friction] ∧
      applyRockOps 0 [rockOp.push 1, rockOp.friction] ≤ 3) ∧
    (∀ (v : ℚ) (d : ℤ), -3 ≤ rockPushSpeed v d ∧ rockPushSpeed v d ≤ 3) ∧
    (∀ v : ℚ, 0 < v → frictionStep v = max (v - 1/40) 0) ∧
    (∀ v : ℚ, v < 0 → frictionStep v = min (v + 1/40) 0) ∧
    frictionStep 0 = 0 :=
  rock_speed_bounded 0 [rockOp.push 1, rockOp.friction] (by norm_num) (by norm_num)

theorem glowIter_rise (n : ℕ) (h : n ≤ 50) : glowIter n = ((n : ℚ)/50, 1/50) := by
  induction n with
  | zero => norm_num [glowIter]
  | succ n ih =>
    have hn : n ≤ 50 := by omega
    have hn49 : (n : ℚ) ≤ 49 := by exact_mod_cast (by omega : n ≤ 49)
    have hn0 : (0 : ℚ) ≤ (n : ℚ) := by positivity
    rw [show glowIter (n + 1) = glowStep (glowIter n) from rfl, ih hn]
    simp only [glowStep]
    rw [if_neg (show ¬((n : ℚ)/50 + 1/50 < 0) by push_neg; positivity)]
    rw [if_neg (show ¬((n : ℚ)/50 + 1/50 > 1) by
      push_neg
      rw [div_add_div_same, div_le_one (by norm_num)]
      linarith)]
    push_cast
    rw [div_add_div_same]

theorem glowIter_fall (k : ℕ) (h : k ≤ 50) : glowIter (51 + k) = (1 - (k : ℚ)/50, -(1/50)) := by
  induction k with
  | zero =>
    rw [show 51 + 0 = 50 + 1 from rfl, show glowIter (50 + 1) = glowStep (glowIter 50) from rfl,
      glowIter_rise 50 (by omega)]
    norm_num [glowStep]
  | succ k ih =>
    have hk : k ≤ 50 := by omega
    have hk49 : (k : ℚ) ≤ 49 := by exact_mod_cast (by omega : k ≤ 49)
    have hk0 : (0 : ℚ) ≤ (k : ℚ) := by positivity
    rw [show 51 + (k + 1) = (51 + k) + 1 from by omega,
      show glowIter ((51 + k) + 1) = glowStep (glowIter (51 + k)) from rfl, ih hk]
    simp only [glowStep]
    rw [if_neg (show ¬(1 - (k : ℚ)/50 + -(1/50) < 0) by push_neg; linarith)]
    rw [if_neg (show ¬(1 - (k : ℚ)/50 + -(1/50) > 1) by push_neg; linarith)]
    push_cast
    simp only [Prod.mk.injEq]
    exact ⟨by ring, trivial⟩

theorem glowStep_invariant (p : ℚ × ℚ) (h0 : 0 ≤ p.1) (h1 : p.1 ≤ 1)
    (hd : p.2 = 1/50 ∨ p.2 = -(1/50)) :
    0 ≤ (glowStep p).1 ∧ (glowStep p).1 ≤ 1 ∧
      ((glowStep p).2 = 1/50 ∨ (glowStep p).2 = -(1/50)) := by
  obtain ⟨a, b⟩ := p
  simp only at h0 h1 hd
  simp only [glowStep]
  rcases hd with rfl | rfl <;> split_ifs <;> norm_num <;> constructor <;> linarith

/-- Claim C6 (counterexample): the ratio first reaches 1 at frame 50, but
the delta has not flipped there (it is still +0.02), so frame 51 holds the
value 1 again instead of the claimed next value 0.98. -/
theorem gate_glow_pingpong_cex :
    glowIter 50 = (1, 1/50) ∧ glowIter 51 = (1, -(1/50)) ∧ (1 : ℚ) ≠ 49/50 := by
  have h50 : glowIter 50 = (1, 1/50) := by
    have h := glowIter_rise 50 (by omega)
    norm_num at h
    exact h
  have h51 : glowIter 51 = (1, -(1/50)) := by
    have h := glowIter_fall 0 (by omega)
    norm_num at h
    exact h
  exact ⟨h50, h51, by norm_num⟩

/-- Claim C6 (amended): starting from ratio 0 with delta +0.02, the ratio
stays in [0, 1] forever and the delta is always ±0.02; the sign flips on
the frame after a boundary is reached (when the next step would overshoot),
so each boundary value is held for two consecutive frames, and the state is
periodic with period 102: 0, 0.02, …, 0.98, 1, 1, 0.98, …, 0.02, 0, 0, …. -/
theorem gate_glow_pingpong_amended :
    (∀ n : ℕ, 0 ≤ (glowIter n).1 ∧ (glowIter n).1 ≤ 1 ∧
      ((glowIter n).2 = 1/50 ∨ (glowIter n).2 = -(1/50))) ∧
    glowIter 50 = (1, 1/50) ∧ glowIter 51 = (1, -(1/50)) ∧ glowIter 102 = glowIter 0 := by
  have h50 : glowIter 50 = (1, 1/50) := by
    have h := glowIter_rise 50 (by omega)
    norm_num at h
    exact h
  have h101 : glowIter 101 = (0, -(1/50)) := by
    have h := glowIter_fall 50 (by omega)
    norm_num at h
    exact h
  have h51 : glowIter 51 = (1, -(1/50)) := by
    have h := glowIter_fall 0 (by omega)
    norm_num at h
    exact h
  refine ⟨?_, h50, h51, ?_⟩
  · intro n
    induction n with
    | zero => norm_num [glowIter]
    | succ n ih =>
      obtain ⟨ha, hb, hc⟩ := ih
      exact glowStep_invariant (glowIter n) ha hb hc
  · rw [show (102 : ℕ) = 101 + 1 from rfl,
      show glowIter (101 + 1) = glowStep (glowIter 101) from rfl, h101]
    show glowStep (0, -(1/50)) = glowIter 0
    rw [show glowIter 0 = (0, 1/50) from rfl]
    norm_num [glowStep]

theorem depenX_d_zero (ov : Rectangle → Bool) (b : ℤ) (fuel : ℕ) (r : Rectangle) :
    depenX ov b fuel r 0 = (r, 0) := by
  cases fuel with
  | zero => rfl
  | succ n =>
    unfold depenX
    split <;> simp

theorem depenY_d_zero (ov : Rectangle → Bool) (b : ℤ) (fuel : ℕ) (r : Rectangle) :
    depenY ov b fuel r 0 = (r, 0) := by
  cases fuel with
  | zero => rfl
  | succ n =>
    unfold depenY
    split <;> simp

theorem depenX_fuel (ov : Rectangle → Bool) (b : ℤ) :
    ∀ (n extra : ℕ) (r : Rectangle) (d : ℤ), d.natAbs = n →
      (d < 0 → b = -1) → (0 < d → b = 1) →
      depenX ov b (n + extra) r d = depenX ov b n r d := by
  intro n
  induction n with
  | zero =>
    intro extra r d hd hneg hpos
    have hd0 : d = 0 := by omega
    subst hd0
    rw [depenX_d_zero, depenX_d_zero]
  | succ n ih =>
    intro extra r d hd hneg hpos
    have hdne : d ≠ 0 := by omega
    rw [show n + 1 + extra = (n + extra) + 1 from by omega]
    by_cases hov : ov r = true
    · have hL : depenX ov b ((n + extra) + 1) r d
          = depenX ov b (n + extra) { r with X := r.X - b } (d - b) := by
        conv_lhs => unfold depenX
        rw [if_pos hov, if_neg hdne]
      have hR : depenX ov b (n + 1) r d
          = depenX ov b n { r with X := r.X - b } (d - b) := by
        conv_lhs => unfold depenX
        rw [if_pos hov, if_neg hdne]
      rw [hL, hR]
      rcases (by omega : 0 < d ∨ d < 0) with hdp | hdn
      · have hb : b = 1 := hpos hdp
        subst hb
        exact ih extra _ (d - 1) (by omega) (by omega) (by omega)
      · have hb : b = -1 := hneg hdn
        subst hb
        exact ih extra _ (d - -1) (by omega) (by omega) (by omega)
    · have hov' : ¬ (ov r = true) := hov
      have hL : depenX ov b ((n + extra) + 1) r d = (r, d) := by
        conv_lhs => unfold depenX
        rw [if_neg hov']
      have hR : depenX ov b (n + 1) r d = (r, d) := by
        conv_lhs => unfold depenX
        rw [if_neg hov']
      rw [hL, hR]

theorem depenY_fuel (ov : Rectangle → Bool) (b : ℤ) :
    ∀ (n extra : ℕ) (r : Rectangle) (d : ℤ), d.natAbs = n →
      (d < 0 → b = -1) → (0 < d → b = 1) →
      depenY ov b (n + extra) r d = depenY ov b n r d := by
  intro n
  induction n with
  | zero =>
    intro extra r d hd hneg hpos
    have hd0 : d = 0 := by omega
    subst hd0
    rw [depenY_d_zero, depenY_d_zero]
  | succ n ih =>
    intro extra r d hd hneg hpos
    have hdne : d ≠ 0 := by omega
    rw [show n + 1 + extra = (n + extra) + 1 from by omega]
    by_cases hov : ov r = true
    · have hL : depenY ov b ((n + extra) + 1) r d
          = depenY ov b (n + extra) { r with Y := r.Y - b } (d - b) := by
        conv_lhs => unfold depenY
        rw [if_pos hov, if_neg hdne]
      have hR : depenY ov b (n + 1) r d
          = depenY ov b n { r with Y := r.Y - b } (d - b) := by
        conv_lhs => unfold depenY
        rw [if_pos hov, if_neg hdne]
      rw [hL, hR]
      rcases (by omega : 0 < d ∨ d < 0) with hdp | hdn
      · have hb : b = 1 := hpos hdp
        subst hb
        exact ih extra _ (d - 1) (by omega) (by omega) (by omega)
      · have hb : b = -1 := hneg hdn
        subst hb
        exact ih extra _ (d - -1) (by omega) (by omega) (by omega)
    · have hov' : ¬ (ov r = true) := hov
      have hL : depenY ov b ((n + extra) + 1) r d = (r, d) := by
        conv_lhs => unfold depenY
        rw [if_neg hov']
      have hR : depenY ov b (n + 1) r d = (r, d) := by
        conv_lhs => unfold depenY
        rw [if_neg hov']
      rw [hL, hR]

theorem depenX_spec (ov : Rectangle → Bool) (b : ℤ) :
    ∀ (n : ℕ) (r : Rectangle) (d : ℤ), d.natAbs = n →
      (d < 0 → b = -1) → (0 < d → b = 1) →
      (depenX ov b n r d).1 = { r with X := r.X - d + (depenX ov b n r d).2 } ∧
      (ov (depenX ov b n r d).1 = false ∨ (depenX ov b n r d).2 = 0) := by
  intro n
  induction n with
  | zero =>
    intro r d hd hneg hpos
    have hd0 : d = 0 := by omega
    subst hd0
    rw [depenX_d_zero]
    refine ⟨?_, Or.inr rfl⟩
    rcases r with ⟨a, c, w, h⟩
    simp
  | succ n ih =>
    intro r d hd hneg hpos
    by_cases hov : ov r = true
    · have hdne : d ≠ 0 := by omega
      have hstep : depenX ov b (n + 1) r d
          = depenX ov b n { r with X := r.X - b } (d - b) := by
        conv_lhs => unfold depenX
        rw [if_pos hov, if_neg hdne]
      rw [hstep]
      rcases (by omega : 0 < d ∨ d < 0) with hdp | hdn
      · have hb : b = 1 := hpos hdp
        subst hb
        obtain ⟨hA, hB⟩ := ih { r with X := r.X - 1 } (d - 1) (by omega) (by omega) (by omega)
        refine ⟨?_, hB⟩
        rw [hA]
        rcases r with ⟨a, c, w, h⟩
        simp only [Rectangle.mk.injEq, and_true, true_and]
        ring
      · have hb : b = -1 := hneg hdn
        subst hb
        obtain ⟨hA, hB⟩ := ih { r with X := r.X - -1 } (d - -1) (by omega) (by omega) (by omega)
        refine ⟨?_, hB⟩
        rw [hA]
        rcases r with ⟨a, c, w, h⟩
        simp only [Rectangle.mk.injEq, and_true, true_and]
        ring
    · have hstep : depenX ov b (n + 1) r d = (r, d) := by
        unfold depenX
        rw [if_neg hov]
      rw [hstep]
      refine ⟨?_, Or.inl (Bool.eq_false_iff.2 hov)⟩
      rcases r with ⟨a, c, w, h⟩
      simp only [Rectangle.mk.injEq, and_true, true_and]
      ring

theorem depenY_spec (ov : Rectangle → Bool) (b : ℤ) :
    ∀ (n : ℕ) (r : Rectangle) (d : ℤ), d.natAbs = n →
      (d < 0 → b = -1) → (0 < d → b = 1) →
      (depenY ov b n r d).1 = { r with Y := r.Y - d + (depenY ov b n r d).2 } ∧
      (ov (depenY ov b n r d).1 = false ∨ (depenY ov b n r d).2 = 0) := by
  intro n
  induction n with
  | zero =>
    intro r d hd hneg hpos
    have hd0 : d = 0 := by omega
    subst hd0
    rw [depenY_d_zero]
    refine ⟨?_, Or.inr rfl⟩
    rcases r with ⟨a, c, w, h⟩
    simp
  | succ n ih =>
    intro r d hd hneg hpos
    by_cases hov : ov r = true
    · have hdne : d ≠ 0 := by omega
      have hstep : depenY ov b (n + 1) r d
          = depenY ov b n { r with Y := r.Y - b } (d - b) := by
        conv_lhs => unfold depenY
        rw [if_pos hov, if_neg hdne]
      rw [hstep]
      rcases (by omega : 0 < d ∨ d < 0) with hdp | hdn
      · have hb : b = 1 := hpos hdp
        subst hb
        obtain ⟨hA, hB⟩ := ih { r with Y := r.Y - 1 } (d - 1) (by omega) (by omega) (by omega)
        refine ⟨?_, hB⟩
        rw [hA]
        rcases r with ⟨a, c, w, h⟩
        simp only [Rectangle.mk.injEq, and_true, true_and]
        ring
      · have hb : b = -1 := hneg hdn
        subst hb
        obtain ⟨hA, hB⟩ := ih { r with Y := r.Y - -1 } (d - -1) (by omega) (by omega) (by omega)
        refine ⟨?_, hB⟩
        rw [hA]
        rcases r with ⟨a, c, w, h⟩
        simp only [Rectangle.mk.injEq, and_true, true_and]
        ring
    · have hstep : depenY ov b (n + 1) r d = (r, d) := by
        unfold depenY
        rw [if_neg hov]
      rw [hstep]
      refine ⟨?_, Or.inl (Bool.eq_false_iff.2 hov)⟩
      rcases r with ⟨a, c, w, h⟩
      simp only [Rectangle.mk.injEq, and_true, true_and]
      ring

/-- Claim C8: each de-penetration loop of `rock.update`, started from the
tile-constrained displacement `d` at the post-sweep position, terminates
within `|d|` iterations (the `|d|` fuel used by `rock.update` is enough:
any extra fuel leaves the result unchanged), shrinking the displacement one
unit per iteration; on exit either the rectangle no longer overlaps
(player or other rocks — whatever `ov` tests), or the displacement has
reached zero and the rock is back at its pre-sweep position, leaving any
pre-existing overlap uncorrected. -/
theorem depen_terminates_and_separates (ov : Rectangle → Bool) (r : Rectangle) (d b : ℤ)
    (hneg : d < 0 → b = -1) (hpos : 0 < d → b = 1) :
    (∀ extra : ℕ, depenX ov b (d.natAbs + extra) { r with X := r.X + d } d
        = depenX ov b d.natAbs { r with X := r.X + d } d) ∧
    (ov (depenX ov b d.natAbs { r with X := r.X + d } d).1 = false ∨
      ((depenX ov b d.natAbs { r with X := r.X + d } d).2 = 0 ∧
        (depenX ov b d.natAbs { r with X := r.X + d } d).1 = r)) ∧
    (∀ extra : ℕ, depenY ov b (d.natAbs + extra) { r with Y := r.Y + d } d
        = depenY ov b d.natAbs { r with Y := r.Y + d } d) ∧
    (ov (depenY ov b d.natAbs { r with Y := r.Y + d } d).1 = false ∨
      ((depenY ov b d.natAbs { r with Y := r.Y + d } d).2 = 0 ∧
        (depenY ov b d.natAbs { r with Y := r.Y + d } d).1 = r)) := by
  obtain ⟨hXA, hXB⟩ := depenX_spec ov b d.natAbs { r with X := r.X + d } d rfl hneg hpos
  obtain ⟨hYA, hYB⟩ := depenY_spec ov b d.natAbs { r with Y := r.Y + d } d rfl hneg hpos
  refine ⟨fun extra => depenX_fuel ov b d.natAbs extra _ d rfl hneg hpos, ?_,
    fun extra => depenY_fuel ov b d.natAbs extra _ d rfl hneg hpos, ?_⟩
  · rcases hXB with h | h
    · exact Or.inl h
    · refine Or.inr ⟨h, ?_⟩
      rw [hXA, h]
      rcases r with ⟨a, c, w, hh⟩
      simp only [Rectangle.mk.injEq, and_true, true_and]
      ring
  · rcases hYB with h | h
    · exact Or.inl h
    · refine Or.inr ⟨h, ?_⟩
      rw [hYA, h]
      rcases r with ⟨a, c, w, hh⟩
      simp only [Rectangle.mk.injEq, and_true, true_and]
      ring

/-- Claim C8 (witness): the loop theorem applied to a concrete overlap test
(a fixed rectangle at the origin), a concrete start, displacement 3, and
backoff 1. -/
theorem depen_terminates_and_separates_witness :
    (∀ extra : ℕ,
      depenX (fun rc => rc.overlaps ⟨0, 0, 5, 5⟩) 1 ((3 : ℤ).natAbs + extra)
          { Rectangle.mk 0 0 5 5 with X := 0 + 3 } 3
        = depenX (fun rc => rc.overlaps ⟨0, 0, 5, 5⟩) 1 (3 : ℤ).natAbs
          { Rectangle.mk 0 0 5 5 with X := 0 + 3 } 3) ∧
    ((fun rc => rc.overlaps ⟨0, 0, 5, 5⟩)
        (depenX (fun rc => rc.overlaps ⟨0, 0, 5, 5⟩) 1 (3 : ℤ).natAbs
          { Rectangle.mk 0 0 5 5 with X := 0 + 3 } 3).1 = false ∨
      ((depenX (fun rc => rc.overlaps ⟨0, 0, 5, 5⟩) 1 (3 : ℤ).natAbs
          { Rectangle.mk 0 0 5 5 with X := 0 + 3 } 3).2 = 0 ∧
        (depenX (fun rc => rc.overlaps ⟨0, 0, 5, 5⟩) 1 (3 : ℤ).natAbs
          { Rectangle.mk 0 0 5 5 with X := 0 + 3 } 3).1 = ⟨0, 0, 5, 5⟩)) ∧
    (∀ extra : ℕ,
      depenY (fun rc => rc.overlaps ⟨0, 0, 5, 5⟩) 1 ((3 : ℤ).natAbs + extra)
          { Rectangle.mk 0 0 5 5 with Y := 0 + 3 } 3
        = depenY (fun rc => rc.overlaps ⟨0, 0, 5, 5⟩) 1 (3 : ℤ).natAbs
          { Rectangle.mk 0 0 5 5 with Y := 0 + 3 } 3) ∧
    ((fun rc => rc.overlaps ⟨0, 0, 5, 5⟩)
        (depenY (fun rc => rc.overlaps ⟨0, 0, 5, 5⟩) 1 (3 : ℤ).natAbs
          { Rectangle.mk 0 0 5 5 with Y := 0 + 3 } 3).1 = false ∨
      ((depenY (fun rc => rc.overlaps ⟨0, 0, 5, 5⟩) 1 (3 : ℤ).natAbs
          { Rectangle.mk 0 0 5 5 with Y := 0 + 3 } 3).2 = 0 ∧
        (depenY (fun rc => rc.overlaps ⟨0, 0, 5, 5⟩) 1 (3 : ℤ).natAbs
          { Rectangle.mk 0 0 5 5 with Y := 0 + 3 } 3).1 = ⟨0, 0, 5, 5⟩)) :=
  depen_terminates_and_separates (fun rc => rc.overlaps ⟨0, 0, 5, 5⟩) ⟨0, 0, 5, 5⟩ 3 1
    (by omega) (fun _ => rfl)

/-! ## Frame-phase preservation lemmas -/

theorem handleEvents_shape (events : List InputEvent) :
    ∀ g : game, ∃ a b c : Bool, g.handleEvents events =
      { g with leftDown := a, rightDown := b, upDown := c } := by
  induction events with
  | nil => intro g; exact ⟨g.leftDown, g.rightDown, g.upDown, rfl⟩
  | cons e events ih =>
    intro g
    rcases e with ⟨down, key⟩
    cases key with
    | KeyLeft =>
      obtain ⟨a, b, c, hr⟩ := ih { g with leftDown := down }
      exact ⟨a, b, c, by rw [show game.handleEvents g (⟨down, Key.KeyLeft⟩ :: events)
        = game.handleEvents { g with leftDown := down } events from rfl, hr]⟩
    | KeyRight =>
      obtain ⟨a, b, c, hr⟩ := ih { g with rightDown := down }
      exact ⟨a, b, c, by rw [show game.handleEvents g (⟨down, Key.KeyRight⟩ :: events)
        = game.handleEvents { g with rightDown := down } events from rfl, hr]⟩
    | KeyUp =>
      obtain ⟨a, b, c, hr⟩ := ih { g with upDown := down }
      exact ⟨a, b, c, by rw [show game.handleEvents g (⟨down, Key.KeyUp⟩ :: events)
        = game.handleEvents { g with upDown := down } events from rfl, hr]⟩
    | KeyRestart =>
      obtain ⟨a, b, c, hr⟩ := ih g
      exact ⟨a, b, c, by rw [show game.handleEvents g (⟨down, Key.KeyRestart⟩ :: events)
        = game.handleEvents g events from rfl, hr]⟩

theorem suppress_handleEvents (g : game) (events : List InputEvent)
    (h : g.enteringGate = true) :
    (g.handleEvents events).suppressInput = (g.handleEvents []).suppressInput := by
  obtain ⟨a, b, c, hshape⟩ := handleEvents_shape events g
  rw [hshape]
  show ({ g with leftDown := a, rightDown := b, upDown := c } : game).suppressInput
      = game.suppressInput g
  unfold game.suppressInput
  rw [if_pos (show ({ g with leftDown := a, rightDown := b, upDown := c } : game).enteringGate
      = true from h), if_pos h]

theorem suppressInput_pres (g : game) :
    (g.suppressInput).exitGlow = g.exitGlow ∧
    (g.suppressInput).cloudDisappearing = g.cloudDisappearing ∧
    (g.suppressInput).levelDone = g.levelDone ∧
    (g.suppressInput).enteringGate = g.enteringGate := by
  unfold game.suppressInput
  split_ifs <;> exact ⟨rfl, rfl, rfl, rfl⟩

theorem rockPhase_pres (g : game) :
    (g.rockPhase).exitGlow = g.exitGlow ∧
    (g.rockPhase).cloudDisappearing = g.cloudDisappearing ∧
    (g.rockPhase).levelDone = g.levelDone ∧
    (g.rockPhase).enteringGate = g.enteringGate :=
  ⟨rfl, rfl, rfl, rfl⟩

theorem applyFacing_pres (g : game) :
    (g.applyFacing).exitGlow = g.exitGlow ∧
    (g.applyFacing).cloudDisappearing = g.cloudDisappearing ∧
    (g.applyFacing).levelDone = g.levelDone ∧
    (g.applyFacing).enteringGate = g.enteringGate := by
  unfold game.applyFacing
  split_ifs <;> exact ⟨rfl, rfl, rfl, rfl⟩

theorem applyJumpGravity_pres (g : game) :
    (g.applyJumpGravity).exitGlow = g.exitGlow ∧
    (g.applyJumpGravity).cloudDisappearing = g.cloudDisappearing ∧
    (g.applyJumpGravity).levelDone = g.levelDone ∧
    (g.applyJumpGravity).enteringGate = g.enteringGate := by
  simp only [game.applyJumpGravity]
  split_ifs <;> exact ⟨rfl, rfl, rfl, rfl⟩

theorem playerMoveX_pres (g : game) (d : ℤ) :
    ((g.playerMoveX d).1).exitGlow = g.exitGlow ∧
    ((g.playerMoveX d).1).cloudDisappearing = g.cloudDisappearing ∧
    ((g.playerMoveX d).1).levelDone = g.levelDone ∧
    ((g.playerMoveX d).1).enteringGate = g.enteringGate := by
  simp only [game.playerMoveX]
  split_ifs <;> exact ⟨rfl, rfl, rfl, rfl⟩

theorem playerMoveY_pres (g : game) (rect : Rectangle) :
    ((g.playerMoveY rect).1).exitGlow = g.exitGlow ∧
    ((g.playerMoveY rect).1).cloudDisappearing = g.cloudDisappearing ∧
    ((g.playerMoveY rect).1).levelDone = g.levelDone ∧
    ((g.playerMoveY rect).1).enteringGate = g.enteringGate := by
  simp only [game.playerMoveY]
  split_ifs <;> exact ⟨rfl, rfl, rfl, rfl⟩

theorem triggerGate_pres (g : game) (rect : Rectangle) :
    (g.triggerGate rect).exitGlow = g.exitGlow ∧
    (g.triggerGate rect).cloudDisappearing = g.cloudDisappearing ∧
    (g.triggerGate rect).levelDone = g.levelDone ∧
    (g.enteringGate = true → (g.triggerGate rect).enteringGate = true) := by
  simp only [game.triggerGate]
  split_ifs <;> refine ⟨rfl, rfl, rfl, ?_⟩ <;> intro h <;> first | rfl | exact h

theorem commitPosition_pres (g : game) (rect : Rectangle) :
    (g.commitPosition rect).exitGlow = g.exitGlow ∧
    (g.commitPosition rect).cloudDisappearing = g.cloudDisappearing ∧
    (g.commitPosition rect).levelDone = g.levelDone ∧
    (g.commitPosition rect).enteringGate = g.enteringGate := by
  simp only [game.commitPosition]
  split_ifs <;> exact ⟨rfl, rfl, rfl, rfl⟩

theorem glowCounterPhase_pres (g : game) :
    (g.glowCounterPhase).exitGlow = g.exitGlow ∧
    (g.glowCounterPhase).cloudDisappearing = g.cloudDisappearing ∧
    (g.glowCounterPhase).levelDone = g.levelDone ∧
    (g.glowCounterPhase).enteringGate = g.enteringGate := by
  simp only [game.glowCounterPhase]
  split_ifs <;> exact ⟨rfl, rfl, rfl, rfl⟩

theorem midPhase_pres (g : game) :
    ((g.midPhase).1).exitGlow = g.exitGlow ∧
    ((g.midPhase).1).cloudDisappearing = g.cloudDisappearing ∧
    ((g.midPhase).1).levelDone = g.levelDone ∧
    (g.enteringGate = true → ((g.midPhase).1).enteringGate = true) := by
  unfold game.midPhase
  obtain ⟨r1, r2, r3, r4⟩ := rockPhase_pres g
  obtain ⟨f1, f2, f3, f4⟩ := applyFacing_pres g.rockPhase
  obtain ⟨j1, j2, j3, j4⟩ := applyJumpGravity_pres g.rockPhase.applyFacing
  set g3 := g.rockPhase.applyFacing.applyJumpGravity with hg3
  obtain ⟨x1, x2, x3, x4⟩ := playerMoveX_pres g3 (game.cavemanDxOf g.rockPhase)
  set g4 := (g3.playerMoveX (game.cavemanDxOf g.rockPhase)).1 with hg4
  set rect1 := { g4.cavemanBoundsOf with
    X := g4.cavemanBoundsOf.X + (g3.playerMoveX (game.cavemanDxOf g.rockPhase)).2.1 } with hrect1
  obtain ⟨y1, y2, y3, y4⟩ := playerMoveY_pres g4 rect1
  set g5 := (g4.playerMoveY rect1).1 with hg5
  set rect2 := { rect1 with Y := rect1.Y + (g4.playerMoveY rect1).2 } with hrect2
  obtain ⟨t1, t2, t3, t4⟩ := triggerGate_pres g5 rect2
  set g6 := g5.triggerGate rect2 with hg6
  obtain ⟨c1, c2, c3, c4⟩ := commitPosition_pres g6 rect2
  set g7 := g6.commitPosition rect2 with hg7
  obtain ⟨w1, w2, w3, w4⟩ := glowCounterPhase_pres g7
  refine ⟨?_, ?_, ?_, ?_⟩
  · rw [w1, c1, t1, y1, x1, j1, f1, r1]
  · rw [w2, c2, t2, y2, x2, j2, f2, r2]
  · rw [w3, c3, t3, y3, x3, j3, f3, r3]
  · intro h
    rw [w4, c4]
    exact t4 (by rw [y4, x4, j4, f4, r4]; exact h)

theorem gateStep_facts (g : game) (he : g.enteringGate = true) :
    (g.cloudDisappearing = false → g.exitGlow ≤ 1 →
      g.exitGlow ≤ (g.gateStep).exitGlow ∧ (g.gateStep).exitGlow ≤ 1) ∧
    (g.cloudDisappearing = true → 0 ≤ g.exitGlow →
      (g.gateStep).exitGlow ≤ g.exitGlow ∧ 0 ≤ (g.gateStep).exitGlow) ∧
    ((g.gateStep).cloudDisappearing = true →
      g.cloudDisappearing = true ∨ (g.gateStep).exitGlow = 1) ∧
    ((g.gateStep).levelDone = true →
      g.levelDone = true ∨ (g.cloudDisappearing = true ∧ (g.gateStep).exitGlow = 0)) ∧
    (g.gateStep).enteringGate = g.enteringGate := by
  unfold game.gateStep
  rw [if_pos he]
  by_cases hcd : g.cloudDisappearing = true
  · rw [if_neg (show ¬((!g.cloudDisappearing) = true) by simp [hcd])]
    by_cases hlt : g.exitGlow - 77/10000 < 0
    · rw [if_pos hlt]
      refine ⟨fun hc _ => absurd (hc.symm.trans hcd) (by decide), ?_, ?_, ?_, rfl⟩
      · intro _ hge
        exact ⟨hge, le_refl 0⟩
      · intro _
        exact Or.inl hcd
      · intro _
        exact Or.inr ⟨hcd, rfl⟩
    · rw [if_neg hlt]
      push_neg at hlt
      refine ⟨fun hc _ => absurd (hc.symm.trans hcd) (by decide), ?_, ?_, ?_, rfl⟩
      · intro _ _
        constructor
        · show g.exitGlow - 77/10000 ≤ g.exitGlow
          linarith
        · exact hlt
      · intro _
        exact Or.inl hcd
      · intro hl
        exact Or.inl hl
  · have hcd' : g.cloudDisappearing = false := by
      revert hcd
      cases g.cloudDisappearing <;> simp
    rw [if_pos (show (!g.cloudDisappearing) = true by simp [hcd'])]
    by_cases hgt : g.exitGlow + 77/10000 > 1
    · rw [if_pos hgt]
      refine ⟨?_, fun hc => absurd (hcd'.symm.trans hc) (by decide), ?_, ?_, rfl⟩
      · intro _ hle
        exact ⟨hle, le_refl 1⟩
      · intro _
        exact Or.inr rfl
      · intro hl
        exact Or.inl hl
    · rw [if_neg hgt]
      push_neg at hgt
      refine ⟨?_, fun hc => absurd (hcd'.symm.trans hc) (by decide), ?_, ?_, rfl⟩
      · intro _ _
        constructor
        · show g.exitGlow ≤ g.exitGlow + 77/10000
          linarith
        · exact hgt
      · intro hc
        exact absurd (hcd'.symm.trans hc) (by decide)
      · intro hl
        exact Or.inl hl

/-- Claim C3: once the entering-gate flag is set, input events no longer
affect the frame at all (directional input is discarded every frame), the
flag stays set, `exitGlow` rises monotonically capped at 1 while the cloud
is not yet disappearing and falls monotonically floored at 0 afterwards,
the fall can only begin on a frame whose glow reached exactly 1, and the
level-finished flag can only be raised on a frame that completes the fall
to exactly 0. -/
theorem gate_sequence_properties (g : game) (events : List InputEvent)
    (h : g.enteringGate = true) :
    g.Frame events = g.Frame [] ∧
    (g.Frame events).enteringGate = true ∧
    (g.cloudDisappearing = false → g.exitGlow ≤ 1 →
      g.exitGlow ≤ (g.Frame events).exitGlow ∧ (g.Frame events).exitGlow ≤ 1) ∧
    (g.cloudDisappearing = true → 0 ≤ g.exitGlow →
      (g.Frame events).exitGlow ≤ g.exitGlow ∧ 0 ≤ (g.Frame events).exitGlow) ∧
    ((g.Frame events).cloudDisappearing = true →
      g.cloudDisappearing = true ∨ (g.Frame events).exitGlow = 1) ∧
    ((g.Frame events).levelDone = true →
      g.levelDone = true ∨ (g.cloudDisappearing = true ∧ (g.Frame events).exitGlow = 0)) := by
  have hframeA : g.Frame events = ((((g.handleEvents events).suppressInput).midPhase).1).gateStep :=
    rfl
  have hframeB : g.Frame [] = ((((g.handleEvents []).suppressInput).midPhase).1).gateStep := rfl
  have heq : (g.handleEvents events).suppressInput = (g.handleEvents []).suppressInput :=
    suppress_handleEvents g events h
  have ha : g.Frame events = g.Frame [] := by rw [hframeA, hframeB, heq]
  obtain ⟨a, b, c, hsh⟩ := handleEvents_shape events g
  have hh1 : (g.handleEvents events).exitGlow = g.exitGlow := by rw [hsh]
  have hh2 : (g.handleEvents events).cloudDisappearing = g.cloudDisappearing := by rw [hsh]
  have hh3 : (g.handleEvents events).levelDone = g.levelDone := by rw [hsh]
  have hh4 : (g.handleEvents events).enteringGate = g.enteringGate := by rw [hsh]
  obtain ⟨hs1, hs2, hs3, hs4⟩ := suppressInput_pres (g.handleEvents events)
  obtain ⟨hm1, hm2, hm3, hm4⟩ := midPhase_pres ((g.handleEvents events).suppressInput)
  have hme : ((((g.handleEvents events).suppressInput).midPhase).1).enteringGate = true :=
    hm4 (by rw [hs4, hh4]; exact h)
  obtain ⟨hg1, hg2, hg3, hg4, hg5⟩ :=
    gateStep_facts ((((g.handleEvents events).suppressInput).midPhase).1) hme
  have hE : ((((g.handleEvents events).suppressInput).midPhase).1).exitGlow = g.exitGlow := by
    rw [hm1, hs1, hh1]
  have hC : ((((g.handleEvents events).suppressInput).midPhase).1).cloudDisappearing
      = g.cloudDisappearing := by
    rw [hm2, hs2, hh2]
  have hL : ((((g.handleEvents events).suppressInput).midPhase).1).levelDone = g.levelDone := by
    rw [hm3, hs3, hh3]
  refine ⟨ha, ?_, ?_, ?_, ?_, ?_⟩
  · rw [hframeA, hg5]
    exact hme
  · intro hcd hle
    rw [hframeA]
    obtain ⟨u1, u2⟩ := hg1 (hC.trans hcd) (by rw [hE]; exact hle)
    exact ⟨by rw [← hE]; exact u1, u2⟩
  · intro hcd hge
    rw [hframeA]
    obtain ⟨u1, u2⟩ := hg2 (hC.trans hcd) (by rw [hE]; exact hge)
    exact ⟨by rw [hE] at u1; exact u1, u2⟩
  · intro hcd
    rw [hframeA] at hcd ⊢
    rcases hg3 hcd with hu | hu
    · exact Or.inl (hC.symm.trans hu)
    · exact Or.inr hu
  · intro hld
    rw [hframeA] at hld ⊢
    rcases hg4 hld with hu | hu
    · exact Or.inl (hL.symm.trans hu)
    · exact Or.inr ⟨hC.symm.trans hu.1, hu.2⟩

/-- Claim C3 (witness): the gate-sequence theorem applied to a concrete
entering state and a held-Left input event. -/
theorem gate_sequence_properties_witness :
    gEntering.Frame [⟨true, Key.KeyLeft⟩] = gEntering.Frame [] ∧
    (gEntering.Frame [⟨true, Key.KeyLeft⟩]).enteringGate = true ∧
    (gEntering.cloudDisappearing = false → gEntering.exitGlow ≤ 1 →
      gEntering.exitGlow ≤ (gEntering.Frame [⟨true, Key.KeyLeft⟩]).exitGlow ∧
        (gEntering.Frame [⟨true, Key.KeyLeft⟩]).exitGlow ≤ 1) ∧
    (gEntering.cloudDisappearing = true → 0 ≤ gEntering.exitGlow →
      (gEntering.Frame [⟨true, Key.KeyLeft⟩]).exitGlow ≤ gEntering.exitGlow ∧
        0 ≤ (gEntering.Frame [⟨true, Key.KeyLeft⟩]).exitGlow) ∧
    ((gEntering.Frame [⟨true, Key.KeyLeft⟩]).cloudDisappearing = true →
      gEntering.cloudDisappearing = true ∨
        (gEntering.Frame [⟨true, Key.KeyLeft⟩]).exitGlow = 1) ∧
    ((gEntering.Frame [⟨true, Key.KeyLeft⟩]).levelDone = true →
      gEntering.levelDone = true ∨
        (gEntering.cloudDisappearing = true ∧
          (gEntering.Frame [⟨true, Key.KeyLeft⟩]).exitGlow = 0)) :=
  gate_sequence_properties gEntering [⟨true, Key.KeyLeft⟩] rfl

/-- Claim C10: whenever the tile sweep of the player's horizontal move
returns a realized displacement of zero, the whole rock pass is skipped:
the state is returned unchanged (so no rock is pushed and no rock speed
changes in the player-move phase), the final displacement is zero, and the
`cavemanPushing` flag is false. -/
theorem player_zero_dx_skips_rock_pass (g : game) (d : ℤ)
    (h : (g.tileMap.moveInX g.cavemanBoundsOf d).1 = 0) :
    g.playerMoveX d = (g, 0, false) := by
  simp only [game.playerMoveX, h]
  simp

/-- Claim C10 (witness): a grounded caveman holding Right against a wall
with a rock on the far side: the tile sweep realizes zero displacement and
the rock pass is skipped. -/
theorem player_zero_dx_skips_rock_pass_witness :
    gBlocked.playerMoveX 7 = (gBlocked, 0, false) :=
  player_zero_dx_skips_rock_pass gBlocked 7 (by decide)

theorem placeObject_pres (rhb : Rectangle) (off tw th : ℤ) (g : game) (cell : ℤ × ℤ × ℤ) :
    (placeObject rhb off tw th g cell).levelDone = g.levelDone ∧
    (placeObject rhb off tw th g cell).cloudDisappearing = g.cloudDisappearing := by
  simp only [placeObject]
  split_ifs <;> exact ⟨rfl, rfl⟩

theorem foldl_placeObject_pres (rhb : Rectangle) (off tw th : ℤ) :
    ∀ (cells : List (ℤ × ℤ × ℤ)) (g : game),
      (cells.foldl (placeObject rhb off tw th) g).levelDone = g.levelDone ∧
      (cells.foldl (placeObject rhb off tw th) g).cloudDisappearing = g.cloudDisappearing := by
  intro cells
  induction cells with
  | nil => intro g; exact ⟨rfl, rfl⟩
  | cons cl cells ih =>
    intro g
    have hstep : (cl :: cells).foldl (placeObject rhb off tw th) g
        = cells.foldl (placeObject rhb off tw th) (placeObject rhb off tw th g cl) := rfl
    rw [hstep]
    obtain ⟨h1, h2⟩ := ih (placeObject rhb off tw th g cl)
    obtain ⟨p1, p2⟩ := placeObject_pres rhb off tw th g cl
    exact ⟨h1.trans p1, h2.trans p2⟩

theorem newGame_flags (env : Env) (info : Info) (li : ℤ) :
    (newGame env info li).levelDone = false ∧
    (newGame env info li).cloudDisappearing = false := by
  unfold newGame game.init
  obtain ⟨h1, h2⟩ := foldl_placeObject_pres info.RockHitBox
    (1 + goDiv env.tilesImageW (env.levels li).tileWidth
      * goDiv env.tilesImageH (env.levels li).tileHeight)
    (env.levels li).tileWidth (env.levels li).tileHeight
    (env.levels li).objectCells
    { { zeroGame with gateGlowDelta := 1/50 } with
        cavemanHitBox := info.CavemanHitBox, rockHitBox := info.RockHitBox,
        cavemanStandW := env.cavemanStandW, cavemanStandH := env.cavemanStandH,
        gateGlowAW := env.gateGlowAW,
        tileMap := { (tileMap.setSize ({ zeroGame with gateGlowDelta := 1/50 } : game).tileMap
            (env.levels li).width (env.levels li).height) with
          tileW := (env.levels li).tileWidth, tileH := (env.levels li).tileHeight } }
  exact ⟨h1, h2⟩

theorem Frame_levelDone_false (g : game) (events : List InputEvent)
    (h1 : g.cloudDisappearing = false) (h2 : g.levelDone = false) :
    (g.Frame events).levelDone = false := by
  have hframe : g.Frame events = ((((g.handleEvents events).suppressInput).midPhase).1).gateStep :=
    rfl
  obtain ⟨a, b, c, hsh⟩ := handleEvents_shape events g
  have hh2 : (g.handleEvents events).cloudDisappearing = g.cloudDisappearing := by rw [hsh]
  have hh3 : (g.handleEvents events).levelDone = g.levelDone := by rw [hsh]
  obtain ⟨-, hs2, hs3, -⟩ := suppressInput_pres (g.handleEvents events)
  obtain ⟨-, hm2, hm3, -⟩ := midPhase_pres ((g.handleEvents events).suppressInput)
  have hC : ((((g.handleEvents events).suppressInput).midPhase).1).cloudDisappearing = false := by
    rw [hm2, hs2, hh2]
    exact h1
  have hL : ((((g.handleEvents events).suppressInput).midPhase).1).levelDone = false := by
    rw [hm3, hs3, hh3]
    exact h2
  rw [hframe]
  unfold game.gateStep
  by_cases he : ((((g.handleEvents events).suppressInput).midPhase).1).enteringGate = true
  · rw [if_pos he, if_pos (show (!((((g.handleEvents events).suppressInput).midPhase).1).cloudDisappearing) = true by simp [hC])]
    by_cases hgt : ((((g.handleEvents events).suppressInput).midPhase).1).exitGlow + 77/10000 > 1
    · rw [if_pos hgt]
      exact hL
    · rw [if_neg hgt]
      exact hL
  · rw [if_neg he]
    exact hL

theorem restart_step (env : Env) (f : gameFrame) (h : f.won = false) :
    gameFrame.Frame env f [⟨false, Key.KeyRestart⟩]
      = { f with game := (newGame env f.info f.levelIndex).Frame [] } := by
  unfold gameFrame.Frame
  rw [if_neg (show ¬(f.won = true) by rw [h]; exact Bool.false_ne_true)]
  rw [if_pos (show (List.any [(⟨false, Key.KeyRestart⟩ : InputEvent)] isRestartUp) = true
    from rfl)]
  obtain ⟨hl, hc⟩ := newGame_flags env f.info f.levelIndex
  have hfin : ((newGame env f.info f.levelIndex).Frame []).levelDone = false :=
    Frame_levelDone_false _ _ hc hl
  rw [if_neg (show ¬(((newGame env f.info f.levelIndex).Frame []).levelFinished = true) by
    show ¬(((newGame env f.info f.levelIndex).Frame []).levelDone = true)
    rw [hfin]
    exact Bool.false_ne_true)]

/-- Claim C9: processing a Restart input (key-up) rebuilds the current
level's simulation from its spawn data alone — the resulting `game` is the
freshly initialized level state advanced one frame, independent of the
previous in-level state — and restarting twice in a row yields the same
state as restarting once. -/
theorem restart_rebuilds_and_idempotent (env : Env) (f : gameFrame) (h : f.won = false) :
    gameFrame.Frame env f [⟨false, Key.KeyRestart⟩]
      = { f with game := (newGame env f.info f.levelIndex).Frame [] } ∧
    gameFrame.Frame env (gameFrame.Frame env f [⟨false, Key.KeyRestart⟩])
        [⟨false, Key.KeyRestart⟩]
      = gameFrame.Frame env f [⟨false, Key.KeyRestart⟩] := by
  have h1 := restart_step env f h
  refine ⟨h1, ?_⟩
  rw [h1]
  have h2 := restart_step env { f with game := (newGame env f.info f.levelIndex).Frame [] } h
  rw [h2]

/-- Claim C9 (witness): the restart theorem applied to a concrete one-level
environment and a non-won frame state. -/
theorem restart_rebuilds_and_idempotent_witness :
    gameFrame.Frame envW gfW [⟨false, Key.KeyRestart⟩]
      = { gfW with game := (newGame envW gfW.info gfW.levelIndex).Frame [] } ∧
    gameFrame.Frame envW (gameFrame.Frame envW gfW [⟨false, Key.KeyRestart⟩])
        [⟨false, Key.KeyRestart⟩]
      = gameFrame.Frame envW gfW [⟨false, Key.KeyRestart⟩] :=
  restart_rebuilds_and_idempotent envW gfW rfl
